import Mathlib

/-!
Verification of the Web-Algebra evaluation engine specification against its
source (src/web_algebra).  We shallowly embed the Python code: RDF terms,
the dynamic value universe that flows through `Operation.process_json`, the
variable-stack store, the control-flow operators (`Variable`, `Value`,
`Current`, `ForEach`, `Filter`), the `ParameterizedSparqlString` used by
`Substitute`, the operator registry, and the 429-retry loop of
`LinkedDataClient`.  Python's mutable heap (shared variable-stack frames) is
made explicit as a store of frames addressed by index; every other feature
is translated directly from the corresponding function.
-/

set_option maxRecDepth 10000

namespace WebAlgebra

/-- RDF terms as rdflib represents them: `URIRef`, `Literal` (lexical form,
optional datatype IRI, optional language tag) and `BNode`. -/
inductive Term where
  | uri (u : String)
  | lit (lex : String) (datatype : Option String) (lang : Option String)
  | bnode (id : String)
  deriving DecidableEq, Repr

/-- The XSD `string` datatype IRI (`rdflib.namespace.XSD.string`). -/
def xsdString : String := "http://www.w3.org/2001/XMLSchema#string"

/-- The XSD `integer` datatype IRI. -/
def xsdInteger : String := "http://www.w3.org/2001/XMLSchema#integer"

/-- The XSD `double` datatype IRI. -/
def xsdDouble : String := "http://www.w3.org/2001/XMLSchema#double"

/-- The XSD `boolean` datatype IRI. -/
def xsdBoolean : String := "http://www.w3.org/2001/XMLSchema#boolean"

/-- One SPARQL solution row (`rdflib.query.ResultRow`): an ordered binding of
variable names to terms. -/
structure ResultRow where
  bindings : List (String × Term)
  deriving DecidableEq, Repr

/-- A SPARQL solution table (`rdflib.query.Result` / `JSONResult`): variable
names plus ordered rows. -/
structure SparqlResult where
  vars : List String
  rows : List ResultRow
  deriving DecidableEq, Repr

/-- The dynamic (duck-typed) value universe flowing through
`Operation.process_json`: raw JSON scalars, JSON objects and arrays, and the
rdflib values (terms, graphs, results, result rows, triples).  Python floats
are carried by their decimal printed form; no arithmetic is performed on
them anywhere in the engine.  `none` is Python `None` (JSON `null`).
`pyObject` stands for a Python object outside this universe, identified by
its description — the engine can obtain such values (bound methods,
rdflib-internal structures) through `Value.execute`'s `getattr` fallback
(value.py lines 50-52) and only ever passes them around opaquely. -/
inductive PyVal where
  | str (s : String)
  | int (n : Int)
  | bool (b : Bool)
  | float (repr : String)
  | none
  | term (t : Term)
  | graph (triples : List (Term × Term × Term))
  | result (r : SparqlResult)
  | row (r : ResultRow)
  | triple (s p o : Term)
  | list (xs : List PyVal)
  | dict (fields : List (String × PyVal))
  | pyObject (descr : String)

/-- Python `isinstance(x, int)`: `bool` is a subclass of `int` in Python, so
both raw ints and raw bools satisfy this check. -/
def isInstInt : PyVal → Bool
  | .int _ => true
  | .bool _ => true
  | _ => false

/-- Python `int(x)` on a value that passed `isinstance(x, int)`:
`True == 1`, `False == 0`. -/
def pyIntVal : PyVal → Int
  | .int n => n
  | .bool b => if b then 1 else 0
  | _ => 0

/-- Python assoc lookup `d.get(k)` on an insertion-ordered dict modelled as
an association list. -/
def dictGet (fields : List (String × PyVal)) (k : String) : Option PyVal :=
  match fields.find? (fun kv => kv.1 = k) with
  | some kv => some kv.2
  | Option.none => Option.none

mutual

/-- Python `str(x)` as used by `json_to_rdflib`'s default branch.  Terms
render by their str form (lexical / IRI / bnode id, as in rdflib); the
printed forms of containers, graphs, results and rows are reprs whose exact
text no claim depends on, so they are rendered schematically. -/
def pyStr : PyVal → String
  | .str s => s
  | .int n => toString n
  | .bool b => if b then "True" else "False"
  | .float r => r
  | .none => "None"
  | .term (.uri u) => u
  | .term (.lit lex _ _) => lex
  | .term (.bnode b) => b
  | .graph _ => "<Graph>"
  | .result _ => "<Result>"
  | .row _ => "<ResultRow>"
  | .triple _ _ _ => "<Triple>"
  | .list xs => "[" ++ pyStrList xs ++ "]"
  | .dict fs => "\x7b" ++ pyStrFields fs ++ "\x7d"
  | .pyObject d => "<" ++ d ++ ">"

/-- Printed forms of list elements, comma separated. -/
def pyStrList : List PyVal → String
  | [] => ""
  | [x] => pyStr x
  | x :: xs => pyStr x ++ ", " ++ pyStrList xs

/-- Printed forms of dict entries, comma separated. -/
def pyStrFields : List (String × PyVal) → String
  | [] => ""
  | [(k, v)] => k ++ ": " ++ pyStr v
  | (k, v) :: fs => k ++ ": " ++ pyStr v ++ ", " ++ pyStrFields fs

end

/-- Python exceptions raised by the engine, by exception class.  Interpolated
reprs in the messages are abbreviated; no claim depends on message text. -/
inductive Err where
  | valueError (msg : String)
  | typeError (msg : String)
  | keyError (msg : String)
  | notImplementedError (msg : String)
  | outOfFuel
  deriving DecidableEq, Repr

/-- Python truthiness as used in `if datatype:` / `if lang:` inside the
binding branch of `json_to_rdflib`; the values there are strings or
string-like literals after processing, where falsiness means emptiness. -/
def pyTruthy : PyVal → Bool
  | .str s => s ≠ ""
  | .int n => n ≠ 0
  | .bool b => b
  | .float r => r ≠ "0.0"
  | .none => false
  | .term (.lit lex _ _) => lex ≠ ""
  | .term _ => true
  | .graph ts => ts ≠ []
  | .result _ => true
  | .row _ => true
  | .triple _ _ _ => true
  | .list xs => !xs.isEmpty
  | .dict fs => !fs.isEmpty
  | .pyObject _ => true

/-- Literal construction `Literal(value, datatype=dt)` for the scalar
branches of `json_to_rdflib`: rdflib turns the Python value into its lexical
form (booleans are lowercased by rdflib's generic bool→XSD rule). -/
def litOfScalar (data : PyVal) (datatype : String) : Term :=
  match data with
  | .bool b => .lit (if b then "true" else "false") (some datatype) Option.none
  | d => .lit (pyStr d) (some datatype) Option.none

/-- `Operation.json_to_rdflib` (operation.py lines 150-192), translated
branch by branch in source order.  Note that Python checks
`isinstance(data, int)` before `isinstance(data, bool)` and `bool` is an
`int` subclass, so the boolean branch of the source is unreachable; and a
`Graph` matches none of the isinstance checks, so it falls through to the
default string-literal branch. -/
def json_to_rdflib (data : PyVal) : Except Err PyVal :=
  match data with
  | .dict fields =>
      match dictGet fields "type", dictGet fields "value" with
      | some ty, some va =>
          -- SPARQL binding object; `str(...)` of possibly-processed values
          let typeStr := pyStr ty
          let valueStr := pyStr va
          if typeStr = "uri" then .ok (.term (.uri valueStr))
          else if typeStr = "literal" then
            let datatype := dictGet fields "datatype"
            let lang := dictGet fields "xml:lang"
            let dt : Option String :=
              match datatype with
              | some d => if pyTruthy d then some (pyStr d) else Option.none
              | Option.none => Option.none
            let lg : Option String :=
              match lang with
              | some l => if pyTruthy l then some (pyStr l) else Option.none
              | Option.none => Option.none
            .ok (.term (.lit valueStr dt lg))
          else if typeStr = "bnode" then .ok (.term (.bnode valueStr))
          else .error (.valueError ("Unknown binding type: " ++ typeStr))
      | _, _ =>
          -- a dict without both keys is not binding-shaped; it reaches the
          -- default branch of the isinstance chain
          .ok (.term (litOfScalar (.dict fields) xsdString))
  | .term t => .ok (.term t)                      -- already an rdflib term
  | .result r => .ok (.result r)                  -- Result passes through
  | .str s => .ok (.term (.lit s (some xsdString) Option.none))
  | .int n => .ok (.term (litOfScalar (.int n) xsdInteger))
  | .bool b => .ok (.term (litOfScalar (.bool b) xsdInteger))
      -- bool hits the `isinstance(data, int)` branch: datatype xsd:integer;
      -- the source's `isinstance(data, bool)` branch is dead code
  | .float r => .ok (.term (litOfScalar (.float r) xsdDouble))
  | d => .ok (.term (litOfScalar d xsdString))    -- default: Literal(str(data))

/-! ### Variable stack

Python passes the variable stack as a mutable list of mutable dict frames.
The crucial aliasing (the list branch of `process_json` copies the *list*
with `variable_stack.copy()` but the frame dicts stay shared) is made
explicit: frames live in a `Store` addressed by index, and a `Stack` is a
list of frame addresses.  Copying a stack copies the address list only. -/

/-- One variable-scope frame: an insertion-ordered dict name → value. -/
abbrev Frame := List (String × PyVal)

/-- The heap of frames; a frame id is its index in this list. -/
abbrev Store := List Frame

/-- A variable stack: frame ids, innermost scope last (as in the source). -/
abbrev Stack := List Nat

/-- Python dict assignment `d[k] = v` on an insertion-ordered dict:
overwrite in place when the key exists (keeping its position), otherwise
append. -/
def assocSet {α : Type} (l : List (String × α)) (k : String) (v : α) :
    List (String × α) :=
  match l with
  | [] => [(k, v)]
  | (k', v') :: rest => if k' = k then (k, v) :: rest else (k', v') :: assocSet rest k v

/-- `Operation.set_variable` (operation.py lines 136-140): if the stack is
empty, append a fresh frame; then write into the top frame.  Writing into an
existing frame mutates the shared heap. -/
def set_variable (name : String) (value : PyVal) (stack : Stack) (store : Store) :
    Stack × Store :=
  match stack.getLast? with
  | Option.none => (stack ++ [store.length], store ++ [[(name, value)]])
  | some fid => (stack, store.set fid (assocSet (store.getD fid []) name value))

/-- `Operation.get_variable` (operation.py lines 142-147): search frames
from innermost (last) to outermost; raise `ValueError` when unbound. -/
def get_variable (name : String) (stack : Stack) (store : Store) : Except Err PyVal :=
  searchFrames stack.reverse
where
  /-- Scan of `reversed(variable_stack)`. -/
  searchFrames : List Nat → Except Err PyVal
    | [] => .error (.valueError ("Variable '" ++ name ++ "' not found"))
    | fid :: rest =>
        match (store.getD fid []).find? (fun kv => kv.1 = name) with
        | some kv => .ok kv.2
        | Option.none => searchFrames rest

/-- Python `x is None`. -/
def isNoneVal : PyVal → Bool
  | .none => true
  | _ => false

/-- Python `s.startswith(pre)`. -/
def pyStartsWith (s pre : String) : Bool :=
  pre.data.isPrefixOf s.data

/-- Python slicing `s[n:]`. -/
def pyStrDrop (s : String) (n : Nat) : String :=
  String.mk (s.data.drop n)

/-! ### Filter (pure execute path) -/

/-- Python `list(x)` / `hasattr(x, "__iter__")` on the modelled universe:
lists iterate elements; strings — and terms, which are rdflib `str`
subclasses — iterate their single-character substrings; dicts iterate keys;
`Result` iterates `ResultRow`s; rows and triples (tuples) iterate their
component terms; graphs iterate triples.  Numbers, booleans and `None` are
not iterable. -/
def pyIterToList : PyVal → Option (List PyVal)
  | .list xs => some xs
  | .str s => some (s.data.map (fun c => .str (String.mk [c])))
  | .term t => some ((pyStr (.term t)).data.map (fun c => .str (String.mk [c])))
  | .dict fs => some (fs.map (fun kv => .str kv.1))
  | .result r => some (r.rows.map .row)
  | .row r => some (r.bindings.map (fun kv => .term kv.2))
  | .graph ts => some (ts.map (fun t => .triple t.1 t.2.1 t.2.2))
  | .triple s p o => some [.term s, .term p, .term o]
  | _ => Option.none

/-- `Filter.execute` together with `Filter._apply_positional_filter`
(filter.py lines 36-57 and 79-96): positional 1-based selection, failing
below 1 or beyond the length, unwrapping a singleton result. -/
def filterExecute (input_data expression : PyVal) : Except Err PyVal :=
  match pyIterToList input_data with
  | Option.none => .error (.typeError "Filter expects iterable input")
  | some items =>
      if isInstInt expression then
        -- _apply_positional_filter: 1-based indexing like XSLT
        let position : Int := pyIntVal expression
        if position < 1 then
          .error (.valueError "Position must be >= 1 (XSLT-style 1-based indexing)")
        else if position > (items.length : Int) then
          .error (.valueError "Position exceeds number of bindings")
        else
          -- bounds are established by the two checks above
          let filtered := [items.getD (position - 1).toNat PyVal.none]
          match filtered with
          | [x] => .ok x            -- single item returned directly (XSLT semantics)
          | xs => .ok (.list xs)
      else
        .error (.notImplementedError "Filter expression type not yet supported")

/-! ### Python attribute access (`hasattr` / `getattr`)

`Value.execute` falls back to `if hasattr(context, name): return
getattr(context, name)` when the context is not a `ResultRow` (value.py
lines 48-54), so raw Python values — most importantly `Literal.value` —
can flow back into the engine. -/

/-- Decimal digits to a natural number; fails on a non-digit. -/
def digitsToNat (cs : List Char) (acc : Nat) : Option Nat :=
  match cs with
  | [] => some acc
  | c :: rest =>
      if c.isDigit then digitsToNat rest (acc * 10 + (c.toNat - 48))
      else Option.none

/-- Python `int(s)` as rdflib's lexical-to-value cast applies it to XSD
integer lexicals: an optional sign followed by decimal digits. -/
def pyParseInt (s : String) : Option Int :=
  match s.data with
  | [] => Option.none
  | '-' :: rest =>
      if rest.isEmpty then Option.none
      else (digitsToNat rest 0).map (fun n => -(n : Int))
  | '+' :: rest =>
      if rest.isEmpty then Option.none
      else (digitsToNat rest 0).map (fun n => (n : Int))
  | cs => (digitsToNat cs 0).map (fun n => (n : Int))

/-- `Literal.value` — rdflib's cast of the lexical form to a Python value
by datatype (rdflib's `_castLexicalToPython`): plain, language-tagged and
`xsd:string` literals give the lexical string, `xsd:integer` parses an int
(an unparsable lexical leaves the cached value `None`), `xsd:boolean`
parses a bool, `xsd:double` gives the float (carried in printed form),
and a datatype without a registered cast leaves `None`. -/
def litToPython (lex : String) (dt : Option String) (lang : Option String) : PyVal :=
  match lang with
  | some _ => .str lex
  | Option.none =>
      match dt with
      | Option.none => .str lex
      | some d =>
          if d = xsdString then .str lex
          else if d = xsdInteger then
            match pyParseInt lex with
            | some n => .int n
            | Option.none => .none
          else if d = xsdDouble then .float lex
          else if d = xsdBoolean then
            if lex = "true" || lex = "1" then .bool true
            else if lex = "false" || lex = "0" then .bool false
            else .none
          else .none

/-- The public method names of Python `str`, inherited by rdflib's
`URIRef`, `Literal` and `BNode` (all `str` subclasses); `getattr` on any of
them yields a bound method. -/
def strMethodNames : List String :=
  ["capitalize", "casefold", "center", "count", "encode", "endswith",
   "expandtabs", "find", "format", "format_map", "index", "isalnum",
   "isalpha", "isascii", "isdecimal", "isdigit", "isidentifier", "islower",
   "isnumeric", "isprintable", "isspace", "istitle", "isupper", "join",
   "ljust", "lower", "lstrip", "maketrans", "partition", "removeprefix",
   "removesuffix", "replace", "rfind", "rindex", "rjust", "rpartition",
   "rsplit", "rstrip", "split", "splitlines", "startswith", "strip",
   "swapcase", "title", "translate", "upper", "zfill"]

/-- Methods rdflib adds on all three term kinds. -/
def rdflibTermMethodNames : List String :=
  ["toPython", "n3"]

/-- Methods rdflib adds on `Literal` beyond the shared ones. -/
def literalMethodNames : List String :=
  ["eq", "neq", "normalize"]

/-- The public method names of Python `dict`. -/
def dictMethodNames : List String :=
  ["clear", "copy", "fromkeys", "get", "items", "keys", "pop", "popitem",
   "setdefault", "update", "values"]

/-- The public method names of Python `list`. -/
def listMethodNames : List String :=
  ["append", "clear", "copy", "count", "extend", "index", "insert", "pop",
   "remove", "reverse", "sort"]

/-- The public method names of Python `tuple` (rows and triples). -/
def tupleMethodNames : List String :=
  ["count", "index"]

/-- The public method names of Python `int` (shared by `bool`). -/
def intMethodNames : List String :=
  ["as_integer_ratio", "bit_count", "bit_length", "conjugate", "from_bytes",
   "to_bytes"]

/-- The public method names of Python `float`. -/
def floatMethodNames : List String :=
  ["as_integer_ratio", "conjugate", "fromhex", "hex", "is_integer"]

/-- The public method names of `rdflib.Graph` read through `getattr`. -/
def graphMethodNames : List String :=
  ["add", "addN", "remove", "triples", "subjects", "predicates", "objects",
   "subject_objects", "subject_predicates", "predicate_objects",
   "serialize", "parse", "query", "update", "bind", "namespaces", "value"]

/-- `hasattr(obj, name)` / `getattr(obj, name)` on the modelled universe,
as `Value.execute`'s fallback (value.py lines 50-52) observes it.  Data
attributes that carry values back into the engine are modelled exactly:
rdflib's `Literal.value` / `.datatype` / `.language`, a `ResultRow`'s
per-variable attribute access, and the numeric `real` / `imag` /
`numerator` / `denominator` properties.  Method attributes are bound
methods — Python objects outside the engine's value universe — drawn from
the per-type method tables above and carried as opaque `pyObject` values,
as are rdflib-internal structured attributes (`Result.vars`,
`Graph.identifier`, ...).  Dunder names and attributes of already-opaque
objects are not modelled: `hasattr` is false for them here. -/
def pyGetAttr (obj : PyVal) (name : String) : Option PyVal :=
  match obj with
  | .term (.lit lex dt lang) =>
      if name = "value" then some (litToPython lex dt lang)
      else if name = "datatype" then
        some (match dt with | some d => .term (.uri d) | Option.none => .none)
      else if name = "language" then
        some (match lang with | some l => .str l | Option.none => .none)
      else if strMethodNames.contains name || rdflibTermMethodNames.contains name
          || literalMethodNames.contains name then
        some (.pyObject ("bound method Literal." ++ name))
      else Option.none
  | .term (.uri _) =>
      if strMethodNames.contains name || rdflibTermMethodNames.contains name
          || name = "defrag" then
        some (.pyObject ("bound method URIRef." ++ name))
      else Option.none
  | .term (.bnode _) =>
      if strMethodNames.contains name || rdflibTermMethodNames.contains name
          || name = "skolemize" then
        some (.pyObject ("bound method BNode." ++ name))
      else Option.none
  | .str _ =>
      if strMethodNames.contains name then
        some (.pyObject ("bound method str." ++ name))
      else Option.none
  | .int n =>
      if name = "real" || name = "numerator" then some (.int n)
      else if name = "imag" then some (.int 0)
      else if name = "denominator" then some (.int 1)
      else if intMethodNames.contains name then
        some (.pyObject ("bound method int." ++ name))
      else Option.none
  | .bool b =>
      -- bool is an int subclass; int.real and int.numerator return self
      if name = "real" || name = "numerator" then some (.bool b)
      else if name = "imag" then some (.int 0)
      else if name = "denominator" then some (.int 1)
      else if intMethodNames.contains name then
        some (.pyObject ("bound method int." ++ name))
      else Option.none
  | .float f =>
      if name = "real" then some (.float f)
      else if name = "imag" then some (.float "0.0")
      else if floatMethodNames.contains name then
        some (.pyObject ("bound method float." ++ name))
      else Option.none
  | .none => Option.none
  | .dict _ =>
      if dictMethodNames.contains name then
        some (.pyObject ("bound method dict." ++ name))
      else Option.none
  | .list _ =>
      if listMethodNames.contains name then
        some (.pyObject ("bound method list." ++ name))
      else Option.none
  | .row r =>
      -- rdflib's ResultRow resolves its variable names as attributes
      match r.bindings.find? (fun kv => kv.1 = name) with
      | some kv => some (.term kv.2)
      | Option.none =>
          if tupleMethodNames.contains name || name = "asdict" || name = "get" then
            some (.pyObject ("bound method ResultRow." ++ name))
          else Option.none
  | .triple _ _ _ =>
      if tupleMethodNames.contains name then
        some (.pyObject ("bound method tuple." ++ name))
      else Option.none
  | .result _ =>
      if name = "vars" || name = "bindings" || name = "type" then
        some (.pyObject ("Result." ++ name))
      else if name = "serialize" then
        some (.pyObject "bound method Result.serialize")
      else Option.none
  | .graph _ =>
      if name = "identifier" || name = "store" then
        some (.pyObject ("Graph." ++ name))
      else if graphMethodNames.contains name then
        some (.pyObject ("bound method Graph." ++ name))
      else Option.none
  | .pyObject _ => Option.none

/-! ### The evaluator

`Operation.process_json` (operation.py lines 70-111) with the control-flow
operators of the spec's §4.3 registered: `Variable`, `Value`, `Current`,
`ForEach`, `Filter` (the registry fragment exercised by the claims; the
lookup fails with `Unknown operation` for every other name).  Each
operator's `execute_json` is translated from its source file.  The `fuel`
argument is a termination artifact of the embedding — Python's recursion is
unbounded — and every recursive call consumes one unit. -/

/-- Engine configuration; none of the modelled operators reads it, matching
the source where `settings` is only forwarded. -/
structure Settings where
  deriving DecidableEq

mutual

/-- `Operation.process_json` (operation.py lines 70-111). -/
def process_json (S : Settings) (json ctx : PyVal) (stack : Stack) (store : Store) :
    Nat → Except Err (PyVal × Stack × Store)
  | 0 => .error .outOfFuel
  | fuel + 1 =>
    match json with
    | .dict fields =>
        match dictGet fields "@op" with
        | some opName =>
            -- operator node: look up the registry, build the operation with
            -- (settings, context), call execute_json(args, variable_stack)
            let op_args := match dictGet fields "args" with
              | some a => a
              | Option.none => .dict []
            match opName with
            | .str "Variable" => variableExecJson S op_args ctx stack store fuel
            | .str "Value" => valueExecJson S op_args ctx stack store fuel
            | .str "Current" => currentExecJson S op_args ctx stack store fuel
            | .str "ForEach" => forEachExecJson S op_args ctx stack store fuel
            | .str "Filter" => filterExecJson S op_args ctx stack store fuel
            | other => .error (.valueError ("Unknown operation: " ++ pyStr other))
        | Option.none => do
            -- recurse into each value of the @op-less object
            let (fs, st', sto') ← processDictFields S fields ctx stack store fuel
            return (.dict fs, st', sto')
    | .list items => do
        -- sequential composition: current_stack = variable_stack.copy() is a
        -- shallow copy — same frame ids, fresh id list.  Structural changes to
        -- the copy are discarded on exit; frame mutations persist in the store.
        let (vs, _, sto') ← processListItems S items ctx stack store fuel
        return (.list vs, stack, sto')
    | scalar => do
        let v ← json_to_rdflib scalar
        return (v, stack, store)

termination_by structural fuel => fuel
/-- The element loop of the list branch, threading the (copied) stack so
that bindings from earlier elements reach later ones. -/
def processListItems (S : Settings) (items : List PyVal) (ctx : PyVal)
    (stack : Stack) (store : Store) : Nat → Except Err (List PyVal × Stack × Store)
  | 0 => .error .outOfFuel
  | fuel + 1 =>
    match items with
    | [] => .ok ([], stack, store)
    | item :: rest => do
        let (v, st1, sto1) ← process_json S item ctx stack store fuel
        let (vs, st2, sto2) ← processListItems S rest ctx st1 sto1 fuel
        return (v :: vs, st2, sto2)

termination_by structural fuel => fuel
/-- The dict comprehension of the @op-less branch: values are evaluated in
key order with the shared stack. -/
def processDictFields (S : Settings) (fields : List (String × PyVal)) (ctx : PyVal)
    (stack : Stack) (store : Store) :
    Nat → Except Err (List (String × PyVal) × Stack × Store)
  | 0 => .error .outOfFuel
  | fuel + 1 =>
    match fields with
    | [] => .ok ([], stack, store)
    | (k, v) :: rest => do
        let (v', st1, sto1) ← process_json S v ctx stack store fuel
        let (fs, st2, sto2) ← processDictFields S rest ctx st1 sto1 fuel
        return ((k, v') :: fs, st2, sto2)

termination_by structural fuel => fuel
/-- `Variable.execute_json` + `Variable.execute` (variable.py lines 33-49):
evaluate the value expression, store the raw result under the name, return
None.  Variable names that are not strings are rejected in the model; the
source would use them as dict keys, but every program binds string names. -/
def variableExecJson (S : Settings) (args ctx : PyVal) (stack : Stack) (store : Store) :
    Nat → Except Err (PyVal × Stack × Store)
  | 0 => .error .outOfFuel
  | fuel + 1 =>
    match args with
    | .dict fs =>
        match dictGet fs "name" with
        | Option.none => .error (.keyError "name")
        | some (.str name) =>
            match dictGet fs "value" with
            | Option.none => .error (.keyError "value")
            | some value_expr => do
                let (value, st1, sto1) ← process_json S value_expr ctx stack store fuel
                let (st2, sto2) := set_variable name value st1 sto1
                return (.none, st2, sto2)
        | some _ => .error (.typeError "Variable name must be a string")
    | _ => .error (.typeError "arguments must be a dict")

termination_by structural fuel => fuel
/-- `Value.execute_json` + `Value.execute` (value.py lines 30-61): a
`$`-prefixed name reads the variable stack; otherwise the name is looked up
in the context — a SPARQL result row behaves as a map, and every other
context type goes through the `hasattr`/`getattr` fallback of value.py
lines 50-52, which can hand raw Python values (such as `Literal.value`)
back to the engine. -/
def valueExecJson (_S : Settings) (args ctx : PyVal) (stack : Stack) (store : Store) :
    Nat → Except Err (PyVal × Stack × Store)
  | 0 => .error .outOfFuel
  | _fuel + 1 =>
    match args with
    | .dict fs =>
        match dictGet fs "name" with
        | Option.none => .error (.keyError "name")
        | some (.str name) =>
            if pyStartsWith name "$" then do
              let v ← get_variable (pyStrDrop name 1) stack store
              return (v, stack, store)
            else
              match ctx with
              | .row r =>
                  match r.bindings.find? (fun kv => kv.1 = name) with
                  | some kv => .ok (.term kv.2, stack, store)
                  | Option.none =>
                      .error (.valueError ("Variable '" ++ name ++ "' not found in ResultRow"))
              | c =>
                  -- if hasattr(context, name): return getattr(context, name)
                  match pyGetAttr c name with
                  | some a => .ok (a, stack, store)
                  | Option.none =>
                      .error (.valueError ("Context variable '" ++ name ++ "' not found"))
        | some _ => .error (.typeError "Value name must be a string")
    | _ => .error (.typeError "arguments must be a dict")

/-- `Current.execute_json` + `Current.execute` (current.py lines 26-35):
return the context item, failing only when it is `None`. -/
def currentExecJson (_S : Settings) (_args ctx : PyVal) (stack : Stack) (store : Store) :
    Nat → Except Err (PyVal × Stack × Store)
  | 0 => .error .outOfFuel
  | _fuel + 1 =>
    match ctx with
    | .none => .error (.valueError "Current operation requires context")
    | c => .ok (c, stack, store)

/-- `ForEach.execute_json` (for_each.py lines 46-78 and the loop below):
evaluate `select`, take the raw `operation`, iterate list elements or
result rows. -/
def forEachExecJson (S : Settings) (args ctx : PyVal) (stack : Stack) (store : Store) :
    Nat → Except Err (PyVal × Stack × Store)
  | 0 => .error .outOfFuel
  | fuel + 1 =>
    match args with
    | .dict fs =>
        match dictGet fs "select" with
        | Option.none => .error (.keyError "select")
        | some selectExpr => do
            let (select_data, st1, sto1) ← process_json S selectExpr ctx stack store fuel
            match dictGet fs "operation" with
            | Option.none => .error (.keyError "operation")
            | some operation =>
                match select_data with
                | .list xs => do
                    let (rs, st2, sto2) ← forEachIterate S operation xs st1 sto1 fuel
                    return (.list rs, st2, sto2)
                | .result r => do
                    -- list(select_data): Result iterates its ResultRows
                    let (rs, st2, sto2) ←
                      forEachIterate S operation (r.rows.map .row) st1 sto1 fuel
                    return (.list rs, st2, sto2)
                | _ => .error (.typeError "ForEach expects select to be sequence (list) or Result")
    | _ => .error (.typeError "arguments must be a dict")

termination_by structural fuel => fuel
/-- The per-item loop of `ForEach.execute_json` (for_each.py lines 79-110):
the item becomes the context; a list operation runs its elements in
sequence keeping the last non-None result, a single operation contributes
its own non-None result. -/
def forEachIterate (S : Settings) (operation : PyVal) (items : List PyVal)
    (stack : Stack) (store : Store) : Nat → Except Err (List PyVal × Stack × Store)
  | 0 => .error .outOfFuel
  | fuel + 1 =>
    match items with
    | [] => .ok ([], stack, store)
    | item :: rest =>
        match operation with
        | .list ops => do
            let (last?, st1, sto1) ← forEachOpsSeq S ops item Option.none stack store fuel
            let (rs, st2, sto2) ← forEachIterate S operation rest st1 sto1 fuel
            return ((match last? with
                     | some r => r :: rs
                     | Option.none => rs), st2, sto2)
        | op => do
            let (r, st1, sto1) ← process_json S op item stack store fuel
            let (rs, st2, sto2) ← forEachIterate S operation rest st1 sto1 fuel
            return ((if isNoneVal r then rs else r :: rs), st2, sto2)

termination_by structural fuel => fuel
/-- The inner operation-list loop of `ForEach.execute_json` (for_each.py
lines 84-97): `last_result` is the accumulator, updated on every non-None
result; the variable stack is shared, not copied. -/
def forEachOpsSeq (S : Settings) (ops : List PyVal) (item : PyVal) (acc : Option PyVal)
    (stack : Stack) (store : Store) : Nat → Except Err (Option PyVal × Stack × Store)
  | 0 => .error .outOfFuel
  | fuel + 1 =>
    match ops with
    | [] => .ok (acc, stack, store)
    | op :: rest => do
        let (r, st1, sto1) ← process_json S op item stack store fuel
        forEachOpsSeq S rest item (if isNoneVal r then acc else some r) st1 sto1 fuel

termination_by structural fuel => fuel
/-- `Filter.execute_json` (filter.py lines 59-77): process both arguments,
require the evaluated expression to be a Python int, then run the pure
filter. -/
def filterExecJson (S : Settings) (args ctx : PyVal) (stack : Stack) (store : Store) :
    Nat → Except Err (PyVal × Stack × Store)
  | 0 => .error .outOfFuel
  | fuel + 1 =>
    match args with
    | .dict fs =>
        match dictGet fs "input" with
        | Option.none => .error (.keyError "input")
        | some inputExpr => do
            let (input_data, st1, sto1) ← process_json S inputExpr ctx stack store fuel
            match dictGet fs "expression" with
            | Option.none => .error (.keyError "expression")
            | some exprExpr => do
                let (expression_data, st2, sto2) ← process_json S exprExpr ctx st1 sto1 fuel
                if isInstInt expression_data then do
                  let v ← filterExecute input_data expression_data
                  return (v, st2, sto2)
                else
                  .error (.typeError "Filter operation expects expression to be int")
    | _ => .error (.typeError "arguments must be a dict")
termination_by structural fuel => fuel

end

/-! ### Shapes of evaluation results -/

/-- The shape the spec's universal invariant claims for `process_json`
results: "a Term, Graph, Result, list, or null; never raw JSON". -/
def claimedResultShape : PyVal → Bool
  | .term _ => true
  | .graph _ => true
  | .result _ => true
  | .list _ => true
  | .none => true
  | _ => false

/-- A JSON scalar program node: neither an object nor an array. -/
def isScalarJson : PyVal → Bool
  | .dict _ => false
  | .list _ => false
  | _ => true

/-! ### ForEach's pure execute path (for_each.py lines 36-44) -/

/-- `ForEach.execute`: unconditionally raises `NotImplementedError`. -/
def forEachExecute (_select_data _operation : PyVal) : Except Err PyVal :=
  .error (.notImplementedError "ForEach pure function needs operation execution context")

/-! ### ParameterizedSparqlString and Substitute (substitute.py) -/

/-- Python `\w` on the ASCII alphabet used by SPARQL variable names:
letters, digits and underscore.  (The source compiles the pattern without
`re.ASCII`; the claims' inputs are ASCII.) -/
def isWordChar (c : Char) : Bool :=
  c.isAlpha || c.isDigit || c = '_'

/-- `ParameterizedSparqlString._format_node` (substitute.py lines 178-191):
IRI in angle brackets, literal quoted with language tag or datatype, blank
node rendered as `_: id` — the source f-string `"_: {node}"` contains a
space after the colon. -/
def formatNode : Term → String
  | .uri u => "<" ++ u ++ ">"
  | .lit lex dt lang =>
      match lang with
      | some l => "\"" ++ lex ++ "\"@" ++ l
      | Option.none =>
          match dt with
          | some d => "\"" ++ lex ++ "\"^^<" ++ d ++ ">"
          | Option.none => "\"" ++ lex ++ "\""
  | .bnode b => "_: " ++ b

/-- `re.sub` with the pattern `([?$]var)([^\w]|$)` and replacement
`value\2` (`_safe_replace`, substitute.py lines 173-176), for a plain
(metacharacter-free) variable name: scan left to right; on a match consume
`?var` or `$var` plus the bounding character, emit the value and the
bounding character, and resume after it. -/
def subVarStep (var value : List Char) : Nat → Bool → List Char → List Char
  | 0, false, [] => []
  | 0, false, c :: rest =>
      if (c = '?' || c = '$') && var.isPrefixOf rest
          && (match rest.drop var.length with
              | [] => true
              | b :: _ => !isWordChar b) then
        -- match found: emit the replacement, silently drop the variable
        -- characters, then re-emit the bounding character (the \2 group)
        value ++ subVarStep var value var.length true rest
      else
        c :: subVarStep var value 0 false rest
  | 0, true, [] => []                              -- the match ended the string
  | 0, true, c :: rest => c :: subVarStep var value 0 false rest
  | _n + 1, _emitB, [] => []
  | n + 1, emitB, _c :: rest => subVarStep var value n emitB rest

/-- The scan from the initial state. -/
def subVarChars (var value : List Char) (l : List Char) : List Char :=
  subVarStep var value 0 false l

/-- `_safe_replace` on strings. -/
def safeReplace (query var value : String) : String :=
  String.mk (subVarChars var.data value.data query.data)

/-- The positional pass of `to_string` (substitute.py lines 201-214):
`re.sub` over `\?(\s|[;,.])` with a function that substitutes only indices
present in `positional_params`, keeping the matched text otherwise.  On a
match the `?` and its bounding character are consumed and scanning resumes
after them. -/
def positionalSubChars (posParams : List (Nat × Term)) (index : Nat) :
    List Char → List Char
  | [] => []
  | [c] => [c]
  | c :: b :: rest2 =>
      if c = '?' && (b.isWhitespace || b = ';' || b = ',' || b = '.') then
        match posParams.find? (fun p => p.1 = index) with
        | some p =>
            (formatNode p.2).data ++ b :: positionalSubChars posParams (index + 1) rest2
        | Option.none => c :: b :: positionalSubChars posParams (index + 1) rest2
      else c :: positionalSubChars posParams index (b :: rest2)

/-- The state of a `ParameterizedSparqlString` (substitute.py lines
136-143). -/
structure PSS where
  command : String
  baseUri : Option String := Option.none
  params : List (String × Term) := []
  positionalParams : List (Nat × Term) := []
  prefixes : List (String × String) := []

/-- The parameter name `set_param` stores: the variable with one leading
`?` stripped (substitute.py lines 151-152). -/
def pssParamName (var : String) : String :=
  if pyStartsWith var "?" then pyStrDrop var 1 else var

/-- `ParameterizedSparqlString.set_param` (lines 150-153): strip one
leading `?` and record the binding (dict assignment). -/
def PSS.setParam (pss : PSS) (var : String) (value : Term) : PSS :=
  { pss with params := assocSet pss.params (pssParamName var) value }

/-- `ParameterizedSparqlString.to_string` (lines 196-223): substitute each
named parameter, run the positional pass, prepend `BASE` when set, then
prepend the prefix-declaration block *and a newline* — also when there are
no prefixes. -/
def PSS.toString (pss : PSS) : String :=
  let query := pss.params.foldl
    (fun q p => safeReplace q p.1 (formatNode p.2)) pss.command
  let query := String.mk (positionalSubChars pss.positionalParams 0 query.data)
  let query := match pss.baseUri with
    | some b => "BASE <" ++ b ++ ">\n" ++ query
    | Option.none => query
  let prefixDecls := String.intercalate "\n"
    (pss.prefixes.map (fun p => "PREFIX " ++ p.1 ++ ": <" ++ p.2 ++ ">"))
  prefixDecls ++ "\n" ++ query

/-- `Substitute.execute` (substitute.py lines 63-87): type-check the three
arguments, build a `ParameterizedSparqlString`, set the one parameter and
serialize, returning an `xsd:string` literal. -/
def substituteExecute (query var binding_value : PyVal) : Except Err PyVal :=
  match query with
  | .term (.lit qlex _ _) =>
      match var with
      | .term (.lit vlex _ _) =>
          match binding_value with
          | .term t =>
              let pss : PSS := { command := qlex }
              let pss := pss.setParam vlex t
              .ok (.term (.lit pss.toString (some xsdString) Option.none))
          | _ => .error (.typeError "Substitute.execute expects binding_value to be URIRef, Literal, or BNode")
      | _ => .error (.typeError "Substitute.execute expects var to be Literal")
  | _ => .error (.typeError "Substitute.execute expects query to be Literal")

/-! ### Operator registry (operation.py lines 21, 53-68) -/

/-- A Python operation class as the registry sees it: its `name()` (the
class name), whether it is a subclass of `Operation`, and an identity to
tell distinct factories apart. -/
structure OpClass where
  name : String
  isOperationSubclass : Bool
  classId : Nat
  deriving DecidableEq, Repr

/-- The process-wide registry: an insertion-ordered dict name → class. -/
abbrev Registry := List (String × OpClass)

/-- `Operation.register` (operation.py lines 53-60): raise `ValueError` for
a non-subclass, otherwise assign `registry[name] = cls` — overwriting any
existing entry for the same name. -/
def registerOperation (reg : Registry) (cls : OpClass) : Except Err Registry :=
  if !cls.isOperationSubclass then
    .error (.valueError ("Cannot register " ++ cls.name ++ ": Must be a subclass of Operation."))
  else
    .ok (assocSet reg cls.name cls)

/-- `Operation.get` (operation.py lines 66-68): `registry.get(name)`. -/
def registryGet (reg : Registry) (name : String) : Option OpClass :=
  match reg.find? (fun kv => kv.1 = name) with
  | some kv => some kv.2
  | Option.none => Option.none

/-! ### LinkedDataClient retry loop (client.py lines 74-122) -/

/-- The `Retry-After` header after urllib hands it over: absent, an integer
number of seconds, an HTTP-date (carried as seconds since the epoch — the
source subtracts the current time from it), or text that parses as
neither. -/
inductive RetryAfter where
  | seconds (n : Int)
  | httpDate (t : Int)
  | malformed
  deriving DecidableEq, Repr

/-- An HTTP error response as `urllib.error.HTTPError`: status code and the
optional `Retry-After` header. -/
structure HttpErr where
  code : Nat
  retryAfter : Option RetryAfter := Option.none
  deriving DecidableEq, Repr

/-- One attempt of `self.opener.open(request)`: a successful response
(identified by status code) or a raised `HTTPError`. -/
abbrev Responder := Nat → Except HttpErr Nat

/-- What `_request_with_retry` can do: return a response, re-raise an
`HTTPError`, or fall off the `while` loop returning Python `None` (the
source makes that unreachable). -/
inductive RetryOutcome where
  | response (status : Nat)
  | raised (e : HttpErr)
  | fellThrough
  deriving DecidableEq, Repr

/-- The wait computation of `_request_with_retry` (client.py lines
101-118): honor `Retry-After` as seconds, or as an HTTP-date relative to
the current time clamped at zero; fall back to exponential backoff
`min(2^attempt, 60)` when the header is absent or unparsable. -/
def retryWaitTime (now : Int) (header : Option RetryAfter) (attempt : Nat) : Int :=
  match header with
  | some (.seconds n) => n
  | some (.httpDate t) => max 0 (t - now)
  | some .malformed => min (1 * 2 ^ attempt) 60
  | Option.none => min (1 * 2 ^ attempt) 60

/-- The `while attempt <= max_retries` loop of `_request_with_retry`
(client.py lines 86-122), also counting attempts (calls of `opener.open`)
and recording the waits slept.  Only 429 is retried; any other `HTTPError`
re-raises immediately; when `attempt >= max_retries` the 429 re-raises. -/
def retryLoop (respond : Responder) (now : Int) (maxRetries : Nat) (attempt : Nat) :
    RetryOutcome × Nat × List Int :=
  if attempt ≤ maxRetries then
    match respond attempt with
    | .ok status => (.response status, 1, [])
    | .error e =>
        if e.code ≠ 429 then (.raised e, 1, [])
        else if attempt ≥ maxRetries then (.raised e, 1, [])
        else
          let waitTime := retryWaitTime now e.retryAfter attempt
          let (out, n, ws) := retryLoop respond now maxRetries (attempt + 1)
          (out, n + 1, waitTime :: ws)
  else (.fellThrough, 0, [])
termination_by maxRetries + 1 - attempt
decreasing_by omega

/-- `_request_with_retry(request, max_retries=5)`: the loop from
`attempt = 0`. -/
def requestWithRetry (respond : Responder) (now : Int) (maxRetries : Nat := 5) :
    RetryOutcome × Nat × List Int :=
  retryLoop respond now maxRetries 0

/-! ### Program-node constructors used in the statements -/

/-- The operator node `{"@op": "Variable", "args": {"name": x, "value": e}}`. -/
def mkVariableNode (x : String) (e : PyVal) : PyVal :=
  .dict [("@op", .str "Variable"), ("args", .dict [("name", .str x), ("value", e)])]

/-- The operator node `{"@op": "Value", "args": {"name": n}}`. -/
def mkValueNode (n : String) : PyVal :=
  .dict [("@op", .str "Value"), ("args", .dict [("name", .str n)])]

/-- The default settings record. -/
def defaultSettings : Settings := {}

/-! ### Shared lemmas about the dictionaries and the store -/

theorem assocSet_find_self {α : Type} (l : List (String × α)) (k : String) (v : α) :
    (assocSet l k v).find? (fun kv => kv.1 = k) = some (k, v) := by
  induction l with
  | nil => simp [assocSet, List.find?]
  | cons hd tl ih =>
      obtain ⟨k', v'⟩ := hd
      by_cases h : k' = k
      · subst h
        simp [assocSet, List.find?]
      · simp only [assocSet, if_neg h, List.find?]
        have : (decide (k' = k)) = false := by simpa using h
        simp [this, ih]

theorem assocSet_find_other {α : Type} (l : List (String × α)) (k n : String) (v : α)
    (h : n ≠ k) :
    (assocSet l k v).find? (fun kv => kv.1 = n) = l.find? (fun kv => kv.1 = n) := by
  have hkn : (decide (k = n)) = false := decide_eq_false (fun hh => h hh.symm)
  induction l with
  | nil => simp [assocSet, List.find?, hkn]
  | cons hd tl ih =>
      obtain ⟨k', v'⟩ := hd
      by_cases hk : k' = k
      · subst hk
        simp [assocSet, List.find?, hkn]
      · simp only [assocSet, if_neg hk, List.find?]
        cases hfind : (decide (k' = n)) with
        | true => simp [hfind]
        | false => simp [hfind, ih]

theorem getD_set_self {α : Type} (l : List α) (i : Nat) (a d : α) (h : i < l.length) :
    (l.set i a).getD i d = a := by
  simp [List.getD_eq_getElem?_getD, List.getElem?_set_self, h]

/-! ### C10 — ForEach's pure execute path -/

/-- C10: `ForEach.execute` raises `NotImplementedError` on every input, so
only the `execute_json` path can run a `ForEach`. -/
theorem forEachExecute_always_raises (select_data operation : PyVal) :
    forEachExecute select_data operation
      = .error (.notImplementedError "ForEach pure function needs operation execution context") :=
  rfl

/-! ### C9 — registration under an existing name -/

/-- C9 counterexample: re-registering the name "Foo" with a different
factory does not fail — `register` silently overwrites the entry. -/
theorem register_existing_name_overwrites :
    registerOperation [("Foo", ⟨"Foo", true, 1⟩)] ⟨"Foo", true, 2⟩
      = .ok [("Foo", ⟨"Foo", true, 2⟩)]
    ∧ (⟨"Foo", true, 2⟩ : OpClass) ≠ ⟨"Foo", true, 1⟩ := by
  exact ⟨rfl, by decide⟩

/-- C9 amended: `Operation.register` fails only when the argument is not an
`Operation` subclass; registering an `Operation` subclass always succeeds,
and afterwards the registry maps the name to the new factory — silently
replacing any previous entry — while every other name is untouched. -/
theorem register_semantics (reg : Registry) (cls : OpClass)
    (h : cls.isOperationSubclass = true) :
    registerOperation reg cls = .ok (assocSet reg cls.name cls)
    ∧ registryGet (assocSet reg cls.name cls) cls.name = some cls
    ∧ (∀ n, n ≠ cls.name → registryGet (assocSet reg cls.name cls) n = registryGet reg n)
    ∧ (∀ bad : OpClass, bad.isOperationSubclass = false →
        ∃ msg, registerOperation reg bad = .error (.valueError msg)) := by
  refine ⟨?_, ?_, ?_, ?_⟩
  · simp [registerOperation, h]
  · simp [registryGet, assocSet_find_self]
  · intro n hn
    simp [registryGet, assocSet_find_other reg cls.name n cls hn]
  · intro bad hbad
    exact ⟨"Cannot register " ++ bad.name ++ ": Must be a subclass of Operation.",
      by simp [registerOperation, hbad]⟩

/-- C9 witness: concrete registration discharging the hypotheses of
`register_semantics`. -/
theorem register_semantics_witness :
    registerOperation [("Foo", ⟨"Foo", true, 1⟩)] ⟨"Foo", true, 2⟩
      = .ok [("Foo", ⟨"Foo", true, 2⟩)]
    ∧ registryGet [("Foo", ⟨"Foo", true, 2⟩)] "Foo" = some ⟨"Foo", true, 2⟩ := by
  have h := register_semantics [("Foo", ⟨"Foo", true, 1⟩)] ⟨"Foo", true, 2⟩ rfl
  exact ⟨h.1, h.2.1⟩

/-! ### C2 — json_to_rdflib on scalars, terms, graphs, results -/

/-- C2: evaluating `json_to_rdflib` at the failing inputs.  A Python `True`
satisfies `isinstance(data, int)`, so the code returns a literal typed
`xsd:integer`, not `xsd:boolean` — the boolean branch of the source is
unreachable; and a `Graph` matches no isinstance check, so it is
stringified into an `xsd:string` literal rather than returned unchanged. -/
theorem json_to_rdflib_bool_and_graph :
    json_to_rdflib (.bool true)
      = .ok (.term (.lit "true" (some xsdInteger) Option.none))
    ∧ json_to_rdflib (.graph [])
      = .ok (.term (.lit "<Graph>" (some xsdString) Option.none))
    ∧ xsdInteger ≠ xsdBoolean := by
  exact ⟨rfl, rfl, by decide⟩

/-! ### C3 — positional Filter -/

/-- C3: `Filter.execute` on a list with an integer expression: positions
`1 ≤ i ≤ |xs|` return the element `xs[i-1]` unwrapped; any other position
fails with a `ValueError`. -/
theorem filter_positional (xs : List PyVal) (i : Int) :
    (1 ≤ i → i ≤ (xs.length : Int) →
        filterExecute (.list xs) (.int i) = .ok (xs.getD (i - 1).toNat PyVal.none))
    ∧ ((i < 1 ∨ (xs.length : Int) < i) →
        ∃ msg, filterExecute (.list xs) (.int i) = .error (.valueError msg)) := by
  constructor
  · intro h1 h2
    simp only [filterExecute, pyIterToList, isInstInt, pyIntVal, if_true]
    rw [if_neg (by omega), if_neg (by omega)]
  · intro h
    simp only [filterExecute, pyIterToList, isInstInt, pyIntVal, if_true]
    rcases h with h | h
    · exact ⟨"Position must be >= 1 (XSLT-style 1-based indexing)",
        by rw [if_pos (by omega)]⟩
    · exact ⟨"Position exceeds number of bindings",
        by rw [if_neg (by omega), if_pos (by omega)]⟩

/-- C3 witness: `Filter(["x","y","z"], 2)` returns the unwrapped `"y"`
literal-to-be, and position 0 fails. -/
theorem filter_positional_witness :
    filterExecute (.list [.str "x", .str "y", .str "z"]) (.int 2) = .ok (.str "y")
    ∧ ∃ msg, filterExecute (.list [.str "x", .str "y", .str "z"]) (.int 0)
        = .error (.valueError msg) := by
  constructor
  · have h := (filter_positional [.str "x", .str "y", .str "z"] 2).1 (by norm_num) (by norm_num)
    simpa using h
  · exact (filter_positional [.str "x", .str "y", .str "z"] 0).2 (Or.inl (by norm_num))

/-! ### C6 — Substitute's serialization -/

/-- C6: evaluating `Substitute.execute` on the spec's own example.  The
result carries a leading newline (`to_string` prepends the empty
prefix-declaration block plus `"\n"`), so it is not the claimed exact text;
and `_format_node` writes blank nodes as `_: id` with a space, not
`_:id`. -/
theorem substitute_describe_example :
    substituteExecute
        (.term (.lit "DESCRIBE ?x" (some xsdString) Option.none))
        (.term (.lit "x" (some xsdString) Option.none))
        (.term (.uri "http://example.org/r"))
      = .ok (.term (.lit "\nDESCRIBE <http://example.org/r>" (some xsdString) Option.none))
    ∧ formatNode (.bnode "b1") = "_: b1"
    ∧ "\nDESCRIBE <http://example.org/r>" ≠ "DESCRIBE <http://example.org/r>"
    ∧ "_: b1" ≠ "_:b1" := by
  exact ⟨rfl, rfl, by decide, by decide⟩

/-! ### C7 — Substitute on a query not containing the variable -/

/-- The regex pattern `([?$]var)([^\w]|$)` has a match somewhere in the
text: some position starts with `?` or `$`, followed by the variable name,
bounded by a non-word character or the end. -/
def varOccurs (var : List Char) : List Char → Bool
  | [] => false
  | c :: rest =>
      ((c = '?' || c = '$') && var.isPrefixOf rest
        && (match rest.drop var.length with
            | [] => true
            | b :: _ => !isWordChar b))
      || varOccurs var rest

theorem subVarStep_no_occurrence (var value l : List Char)
    (h : varOccurs var l = false) : subVarStep var value 0 false l = l := by
  induction l with
  | nil => rfl
  | cons c rest ih =>
      simp only [varOccurs, Bool.or_eq_false_iff] at h
      simp only [subVarStep, h.1, Bool.false_eq_true, if_false]
      exact congrArg (c :: ·) (ih h.2)

theorem positionalSubChars_no_params (index : Nat) (l : List Char) :
    positionalSubChars [] index l = l := by
  refine positionalSubChars.induct []
    (fun index l => positionalSubChars [] index l = l) ?_ ?_ ?_ ?_ ?_ index l
  · intro _i
    rfl
  · intro _i _c
    rfl
  · intro _i c b rest2 hc p hp _ih
    simp [List.find?] at hp
  · intro _i c b rest2 hc _hp ih
    simp [positionalSubChars, hc, ih]
  · intro _i c b rest2 hc ih
    simp only [positionalSubChars]
    rw [if_neg hc, ih]

/-- C7 counterexample: substituting the absent variable `y` in
`DESCRIBE ?x` does not return the query unchanged — `to_string` prepends a
newline for the empty prefix block. -/
theorem substitute_absent_variable_not_identity :
    substituteExecute
        (.term (.lit "DESCRIBE ?x" (some xsdString) Option.none))
        (.term (.lit "y" (some xsdString) Option.none))
        (.term (.uri "http://e.org/"))
      = .ok (.term (.lit "\nDESCRIBE ?x" (some xsdString) Option.none))
    ∧ "\nDESCRIBE ?x" ≠ "DESCRIBE ?x" := by
  exact ⟨rfl, by decide⟩

/-- C7 amended: on a query in which the named variable does not occur,
`Substitute` leaves the query text unchanged except for one prepended
newline (the empty prefix-declaration block): the result is exactly
`"\n" ++ query`. -/
theorem substitute_absent_variable (q varName : String) (dq lq dv lv : Option String)
    (t : Term) (h : varOccurs (pssParamName varName).data q.data = false) :
    substituteExecute (.term (.lit q dq lq)) (.term (.lit varName dv lv)) (.term t)
      = .ok (.term (.lit ("\n" ++ q) (some xsdString) Option.none)) := by
  simp only [substituteExecute, PSS.setParam, PSS.toString, assocSet, List.foldl,
    safeReplace, subVarChars, String.intercalate, List.map]
  rw [show q.data = (String.mk q.data).data from rfl] at h
  rw [subVarStep_no_occurrence _ _ _ h, positionalSubChars_no_params]
  rfl

/-- C7 witness: the variable `y` does not occur in `SELECT ?x WHERE { ?x ?p ?o }`,
and substituting it yields the query with a prepended newline. -/
theorem substitute_absent_variable_witness :
    varOccurs (pssParamName "y").data "SELECT ?x WHERE { ?x ?p ?o }".data = false
    ∧ substituteExecute
        (.term (.lit "SELECT ?x WHERE { ?x ?p ?o }" (some xsdString) Option.none))
        (.term (.lit "y" (some xsdString) Option.none))
        (.term (.uri "http://e.org/"))
      = .ok (.term (.lit ("\n" ++ "SELECT ?x WHERE { ?x ?p ?o }") (some xsdString) Option.none)) := by
  refine ⟨rfl, ?_⟩
  exact substitute_absent_variable "SELECT ?x WHERE { ?x ?p ?o }" "y" _ _ _ _
    (.uri "http://e.org/") rfl

/-! ### C8 — 429 retry behavior -/

theorem retryLoop_429_prefix (respond : Responder) (now : Int) (maxR k status : Nat)
    (ra : Nat → Option RetryAfter)
    (h429 : ∀ i, i < k → respond i = .error ⟨429, ra i⟩)
    (hok : respond k = .ok status) (hk : k ≤ maxR) :
    ∀ attempt, attempt ≤ k →
      retryLoop respond now maxR attempt
        = (.response status, k + 1 - attempt,
           (List.range' attempt (k - attempt)).map (fun i => retryWaitTime now (ra i) i)) := by
  have main : ∀ d attempt, attempt ≤ k → k - attempt = d →
      retryLoop respond now maxR attempt
        = (.response status, k + 1 - attempt,
           (List.range' attempt (k - attempt)).map (fun i => retryWaitTime now (ra i) i)) := by
    intro d
    induction d with
    | zero =>
        intro attempt h1 h2
        have hak : attempt = k := by omega
        subst hak
        rw [retryLoop, if_pos (by omega), hok]
        simp
    | succ d ih =>
        intro attempt h1 h2
        have hlt : attempt < k := by omega
        rw [retryLoop, if_pos (by omega), h429 attempt hlt]
        simp only [ne_eq]
        rw [if_neg (by simp), if_neg (by omega), ih (attempt + 1) (by omega) (by omega)]
        rw [show k - attempt = (k - (attempt + 1)) + 1 by omega, List.range'_succ]
        simp only [List.map_cons]
        refine congrArg (Prod.mk _) ?_
        refine congrArg₂ Prod.mk (by omega) ?_
        simp
  intro attempt h1
  exact main (k - attempt) attempt h1 rfl

theorem retryLoop_all_429 (respond : Responder) (now : Int) (maxR : Nat)
    (ra : Nat → Option RetryAfter)
    (h : ∀ i, respond i = .error ⟨429, ra i⟩) :
    ∀ attempt, attempt ≤ maxR →
      (retryLoop respond now maxR attempt).1 = .raised ⟨429, ra maxR⟩
      ∧ (retryLoop respond now maxR attempt).2.1 = maxR + 1 - attempt := by
  have main : ∀ d attempt, attempt ≤ maxR → maxR - attempt = d →
      (retryLoop respond now maxR attempt).1 = .raised ⟨429, ra maxR⟩
      ∧ (retryLoop respond now maxR attempt).2.1 = maxR + 1 - attempt := by
    intro d
    induction d with
    | zero =>
        intro attempt h1 h2
        have hak : attempt = maxR := by omega
        rw [hak, retryLoop, if_pos (by omega), h maxR]
        simp
    | succ d ih =>
        intro attempt h1 h2
        have hlt : attempt < maxR := by omega
        rw [retryLoop, if_pos (by omega), h attempt]
        simp only [ne_eq]
        rw [if_neg (by simp), if_neg (by omega)]
        have ihh := ih (attempt + 1) (by omega) (by omega)
        rcases hrec : retryLoop respond now maxR (attempt + 1) with ⟨out, n, ws⟩
        rw [hrec] at ihh
        simp only at ihh ⊢
        exact ⟨ihh.1, by omega⟩
  intro attempt h1
  exact main (maxR - attempt) attempt h1 rfl

/-- C8: a run of `k` 429 responses followed by a success yields that single
success in exactly `k + 1` attempts (when `k` is within the retry cap),
sleeping the wait prescribed per attempt; any non-429 `HTTPError` is raised
immediately after one attempt; when every response is a 429 the request is
retried only up to the cap (`maxRetries + 1` attempts) and then re-raised;
the backoff used without a (parsable) `Retry-After` is `min(2^attempt, 60)`,
never above 60 seconds, while `Retry-After` seconds and HTTP-dates are
honored as given. -/
theorem retry_429_behavior (respond : Responder) (now : Int) (maxRetries k status : Nat)
    (ra : Nat → Option RetryAfter)
    (h429 : ∀ i, i < k → respond i = .error ⟨429, ra i⟩)
    (hok : respond k = .ok status)
    (hk : k ≤ maxRetries) :
    requestWithRetry respond now maxRetries
      = (.response status, k + 1, (List.range k).map (fun i => retryWaitTime now (ra i) i))
    ∧ (∀ (respond' : Responder) (e : HttpErr), respond' 0 = .error e → e.code ≠ 429 →
        requestWithRetry respond' now maxRetries = (.raised e, 1, []))
    ∧ (∀ (respond'' : Responder) (ra'' : Nat → Option RetryAfter),
        (∀ i, respond'' i = .error ⟨429, ra'' i⟩) →
        (requestWithRetry respond'' now maxRetries).1 = .raised ⟨429, ra'' maxRetries⟩
        ∧ (requestWithRetry respond'' now maxRetries).2.1 = maxRetries + 1)
    ∧ (∀ attempt, retryWaitTime now Option.none attempt ≤ 60
        ∧ retryWaitTime now (some .malformed) attempt ≤ 60)
    ∧ (∀ n attempt, retryWaitTime now (some (.seconds n)) attempt = n)
    ∧ (∀ t attempt, retryWaitTime now (some (.httpDate t)) attempt = max 0 (t - now)) := by
  refine ⟨?_, ?_, ?_, ?_, ?_, ?_⟩
  · have h := retryLoop_429_prefix respond now maxRetries k status ra h429 hok hk 0 (by omega)
    rw [requestWithRetry, h]
    simp [List.range_eq_range']
  · intro respond' e he hcode
    rw [requestWithRetry, retryLoop, if_pos (by omega), he]
    simp [hcode]
  · intro respond'' ra'' hall
    have h := retryLoop_all_429 respond'' now maxRetries ra'' hall 0 (by omega)
    rw [requestWithRetry]
    exact ⟨h.1, by omega⟩
  · intro attempt
    constructor <;> · simp [retryWaitTime]
  · intro n attempt
    rfl
  · intro t attempt
    rfl

/-- C8 witness: two 429s with `Retry-After: 0` then a 200 produce the 200
in three attempts with zero waits; a 404 raises after one attempt. -/
theorem retry_429_behavior_witness :
    requestWithRetry (fun i => if i < 2 then .error ⟨429, some (.seconds 0)⟩ else .ok 200) 0 5
      = (.response 200, 3, [0, 0])
    ∧ requestWithRetry (fun _ => .error ⟨404, Option.none⟩) 0 5
      = (.raised ⟨404, Option.none⟩, 1, []) := by
  have h := retry_429_behavior
    (fun i => if i < 2 then .error ⟨429, some (.seconds 0)⟩ else .ok 200) 0 5 2 200
    (fun _ => some (.seconds 0))
    (by intro i hi; interval_cases i <;> rfl) rfl (by omega)
  constructor
  · rw [h.1]
    rfl
  · exact h.2.1 (fun _ => .error ⟨404, Option.none⟩) ⟨404, Option.none⟩ rfl (by decide)

/-! ### C4 — ForEach collection semantics, stated from the spec's words

The following definitions transcribe §4.3 of the spec: "For each item …, it
evaluates `operation` with that item bound as the new `context` and a
shared variable stack.  If `operation` is itself a list, the items are
executed in sequence and only the last non-null result is collected per
iteration.  If `operation` is a single node, each iteration's non-null
result is collected.  Return value is the ordered list of collected
per-iteration results.  Iteration order equals the order of `select`."
They differ from the source translation in how the collected value of a
list operation is obtained: all results of the sequence are kept and the
last non-null one is selected afterwards, instead of the source's running
`last_result` accumulator. -/

/-- The last non-null result of a sequence of results. -/
def lastNonNull (rs : List PyVal) : Option PyVal :=
  (rs.filter (fun r => !isNoneVal r)).getLast?

/-- Execute the elements of a list operation in sequence against one item,
collecting every result. -/
def forEachSeqResultsSpec (S : Settings) (ops : List PyVal) (item : PyVal)
    (stack : Stack) (store : Store) : Nat → Except Err (List PyVal × Stack × Store)
  | 0 => .error .outOfFuel
  | fuel + 1 =>
    match ops with
    | [] => .ok ([], stack, store)
    | op :: rest => do
        let (r, st1, sto1) ← process_json S op item stack store fuel
        let (rs, st2, sto2) ← forEachSeqResultsSpec S rest item st1 sto1 fuel
        return (r :: rs, st2, sto2)
termination_by structural fuel => fuel

/-- Iterate the items in the order of `select`, collecting per iteration
the last non-null result of a list operation, or the non-null result of a
single operation. -/
def forEachIterateSpec (S : Settings) (operation : PyVal) (items : List PyVal)
    (stack : Stack) (store : Store) : Nat → Except Err (List PyVal × Stack × Store)
  | 0 => .error .outOfFuel
  | fuel + 1 =>
    match items with
    | [] => .ok ([], stack, store)
    | item :: rest =>
        match operation with
        | .list ops => do
            let (rs0, st1, sto1) ← forEachSeqResultsSpec S ops item stack store fuel
            let (rs, st2, sto2) ← forEachIterateSpec S operation rest st1 sto1 fuel
            return ((lastNonNull rs0).toList ++ rs, st2, sto2)
        | op => do
            let (r, st1, sto1) ← process_json S op item stack store fuel
            let (rs, st2, sto2) ← forEachIterateSpec S operation rest st1 sto1 fuel
            return ((if isNoneVal r then [] else [r]) ++ rs, st2, sto2)
termination_by structural fuel => fuel

/-- `ForEach` as the spec describes it: evaluate `select` to a list or a
`Result`, iterate its elements (respectively rows) in order with the
spec's collection rule. -/
def forEachExecJsonSpec (S : Settings) (args ctx : PyVal) (stack : Stack) (store : Store) :
    Nat → Except Err (PyVal × Stack × Store)
  | 0 => .error .outOfFuel
  | fuel + 1 =>
    match args with
    | .dict fs =>
        match dictGet fs "select" with
        | Option.none => .error (.keyError "select")
        | some selectExpr => do
            let (select_data, st1, sto1) ← process_json S selectExpr ctx stack store fuel
            match dictGet fs "operation" with
            | Option.none => .error (.keyError "operation")
            | some operation =>
                match select_data with
                | .list xs => do
                    let (rs, st2, sto2) ← forEachIterateSpec S operation xs st1 sto1 fuel
                    return (.list rs, st2, sto2)
                | .result r => do
                    let (rs, st2, sto2) ←
                      forEachIterateSpec S operation (r.rows.map .row) st1 sto1 fuel
                    return (.list rs, st2, sto2)
                | _ => .error (.typeError "ForEach expects select to be sequence (list) or Result")
    | _ => .error (.typeError "arguments must be a dict")

theorem getLast?_cons_ne_none {α : Type} (x : α) (xs : List α) :
    (x :: xs).getLast? ≠ Option.none := by
  induction xs generalizing x with
  | nil => simp
  | cons y ys ih => rw [List.getLast?_cons_cons]; exact ih y

theorem lastNonNull_cons (r : PyVal) (rs : List PyVal) :
    lastNonNull (r :: rs)
      = match lastNonNull rs with
        | some x => some x
        | Option.none => if isNoneVal r then Option.none else some r := by
  unfold lastNonNull
  by_cases hr : isNoneVal r
  · simp only [List.filter_cons, hr]
    cases hlast : (rs.filter (fun r => !isNoneVal r)).getLast? <;> simp [hlast, hr]
  · have hr' : (!isNoneVal r) = true := by simp [hr]
    simp only [List.filter_cons, hr', if_true]
    cases hfil : rs.filter (fun r => !isNoneVal r) with
    | nil => simp [hfil, hr]
    | cons x xs =>
        simp only [hfil, List.getLast?_cons_cons]
        cases h2 : (x :: xs).getLast? with
        | some y => rfl
        | none => exact absurd h2 (getLast?_cons_ne_none x xs)

theorem if_singleton_append {α : Type} (c : Bool) (x : α) (xs : List α) :
    (if c = true then [] else [x]) ++ xs = if c = true then xs else x :: xs := by
  cases c <;> simp

theorem forEachOpsSeq_eq_spec (S : Settings) (fuel : Nat) :
    ∀ (ops : List PyVal) (item : PyVal) (acc : Option PyVal) (stack : Stack) (store : Store),
    forEachOpsSeq S ops item acc stack store fuel
      = (forEachSeqResultsSpec S ops item stack store fuel).map
          (fun x => ((match lastNonNull x.1 with
                      | some r => some r
                      | Option.none => acc), x.2)) := by
  induction fuel with
  | zero => intro ops item acc stack store; rfl
  | succ fuel ih =>
      intro ops item acc stack store
      cases ops with
      | nil => simp [forEachOpsSeq, forEachSeqResultsSpec, Except.map, lastNonNull]
      | cons op rest =>
          simp only [forEachOpsSeq, forEachSeqResultsSpec, bind, Except.bind]
          cases hr : process_json S op item stack store fuel with
          | error e => rfl
          | ok v =>
              obtain ⟨r, st1, sto1⟩ := v
              dsimp only
              rw [ih rest item _ st1 sto1]
              cases hrest : forEachSeqResultsSpec S rest item st1 sto1 fuel with
              | error e => rfl
              | ok w =>
                  obtain ⟨rs, st2, sto2⟩ := w
                  cases hlast : lastNonNull rs <;> cases hnone : isNoneVal r <;>
                    simp [pure, Except.pure, Except.map, lastNonNull_cons, hlast, hnone]

theorem forEachIterate_eq_spec (S : Settings) (fuel : Nat) :
    ∀ (operation : PyVal) (items : List PyVal) (stack : Stack) (store : Store),
    forEachIterate S operation items stack store fuel
      = forEachIterateSpec S operation items stack store fuel := by
  induction fuel with
  | zero => intro operation items stack store; rfl
  | succ fuel ih =>
      intro operation items stack store
      cases items with
      | nil => cases operation <;> rfl
      | cons item rest =>
          cases operation with
          | list ops =>
              simp only [forEachIterate, forEachIterateSpec, bind, Except.bind]
              rw [forEachOpsSeq_eq_spec]
              cases hseq : forEachSeqResultsSpec S ops item stack store fuel with
              | error e => rfl
              | ok w =>
                  obtain ⟨rs0, st1, sto1⟩ := w
                  simp only [Except.map]
                  rw [ih]
                  cases hrest : forEachIterateSpec S (.list ops) rest st1 sto1 fuel with
                  | error e => rfl
                  | ok u =>
                      obtain ⟨rs, st2, sto2⟩ := u
                      cases hlast : lastNonNull rs0 <;> simp [hlast]
          | _ =>
              simp only [forEachIterate, forEachIterateSpec, bind, Except.bind, ih,
                if_singleton_append]

/-- C4: `ForEach.execute_json` realizes the spec's iteration and collection
semantics exactly: items are taken in `select` order (list elements, or the
rows of a `Result`), a list operation contributes the last non-null result
of running its elements in sequence, a single operation contributes its
non-null result, and the return value is the ordered list of the collected
per-iteration results. -/
theorem forEachExecJson_follows_spec (S : Settings) (args ctx : PyVal)
    (stack : Stack) (store : Store) (fuel : Nat) :
    forEachExecJson S args ctx stack store fuel
      = forEachExecJsonSpec S args ctx stack store fuel := by
  cases fuel with
  | zero => rfl
  | succ fuel =>
      cases args with
      | dict fs =>
          simp only [forEachExecJson, forEachExecJsonSpec, bind, Except.bind,
            forEachIterate_eq_spec]
      | _ => rfl

/-! ### C1 — shapes of process_json results

The spec's "never raw JSON" invariant fails twice: an `@op`-less object is
returned as a plain JSON object (operation.py lines 95-98), and raw Python
values escape through `Value.execute`'s `hasattr`/`getattr` context
fallback (value.py lines 50-52).  What survives is proved below: scalar
programs are always converted by `json_to_rdflib`, and the object branch
returns a dict with exactly the program's keys. -/

/-- `json_to_rdflib` always produces an rdflib term or passes a `Result`
through — never a raw scalar, list or dict. -/
theorem json_to_rdflib_shape (d v : PyVal) (h : json_to_rdflib d = .ok v) :
    (∃ t, v = .term t) ∨ (∃ r, v = .result r) := by
  cases d <;> simp only [json_to_rdflib] at h
  all_goals try (cases h; first | exact Or.inl ⟨_, rfl⟩ | exact Or.inr ⟨_, rfl⟩)
  -- the binding-shaped dict branch
  repeat' split at h
  all_goals cases h
  all_goals exact Or.inl ⟨_, rfl⟩

/-- The `@op`-less dict comprehension keeps the program's keys in order. -/
theorem processDictFields_keys (S : Settings) (fuel : Nat) :
    ∀ (fields : List (String × PyVal)) (ctx : PyVal) (stack : Stack) (store : Store)
      (fs : List (String × PyVal)) (st : Stack) (sto : Store),
      processDictFields S fields ctx stack store fuel = .ok (fs, st, sto) →
      fs.map Prod.fst = fields.map Prod.fst := by
  induction fuel with
  | zero => intro fields ctx stack store fs st sto h; simp [processDictFields] at h
  | succ fuel ih =>
      intro fields ctx stack store fs st sto h
      cases fields with
      | nil =>
          simp only [processDictFields] at h
          cases h
          rfl
      | cons kv rest =>
          obtain ⟨k, v⟩ := kv
          simp only [processDictFields, bind, Except.bind] at h
          cases h1 : process_json S v ctx stack store fuel with
          | error e => rw [h1] at h; simp at h
          | ok r1 =>
              obtain ⟨v1, st1, sto1⟩ := r1
              rw [h1] at h
              dsimp only at h
              cases h2 : processDictFields S rest ctx st1 sto1 fuel with
              | error e => rw [h2] at h; simp at h
              | ok r2 =>
                  obtain ⟨fs2, st2, sto2⟩ := r2
                  have hk := ih rest ctx st1 sto1 fs2 st2 sto2 h2
                  rw [h2] at h
                  dsimp only [pure, Except.pure] at h
                  cases h
                  simp [hk]

/-- C1 counterexample: a valid JSON program that is an object without `@op`
evaluates to a plain JSON object (a dict of the same keys with evaluated
values) — not a Term, Graph, Result, list, or null. -/
theorem process_json_returns_raw_object :
    process_json defaultSettings (.dict [("a", .str "b")]) (.dict []) [] [] 3
      = .ok (.dict [("a", .term (.lit "b" (some xsdString) Option.none))], [], [])
    ∧ claimedResultShape (.dict [("a", .term (.lit "b" (some xsdString) Option.none))])
        = false := by
  exact ⟨rfl, rfl⟩

/-- C1 corrected: "never raw JSON" fails, and what remains true is: (1) an
`@op`-less JSON object evaluates to a plain JSON object with exactly the
program's keys, values recursively evaluated (operation.py lines 95-98);
(2) a scalar program is always converted, yielding an rdflib term (or
passing a `Result` through) — a raw scalar program never comes back raw;
but (3) raw Python values do escape through `Value.execute`'s
`hasattr`/`getattr` fallback on a non-`ResultRow` context (value.py lines
50-52): `ForEach(select=[2], operation=Value{name:"value"})` evaluates to
`[2]` with a raw Python int 2, read off `Literal.value` of the converted
context item, with the default context and an empty store. -/
theorem process_json_shape_characterization :
    (∀ (S : Settings) (fields : List (String × PyVal)) (ctx : PyVal) (stack : Stack)
        (store : Store) (fuel : Nat) (v : PyVal) (st : Stack) (sto : Store),
        dictGet fields "@op" = Option.none →
        process_json S (.dict fields) ctx stack store fuel = .ok (v, st, sto) →
        ∃ fs, v = .dict fs ∧ fs.map Prod.fst = fields.map Prod.fst)
    ∧ (∀ (S : Settings) (json ctx : PyVal) (stack : Stack) (store : Store)
        (fuel : Nat) (v : PyVal) (st : Stack) (sto : Store),
        isScalarJson json = true →
        process_json S json ctx stack store fuel = .ok (v, st, sto) →
        (∃ t, v = .term t) ∨ (∃ r, v = .result r))
    ∧ process_json defaultSettings
        (.dict [("@op", .str "ForEach"), ("args", .dict
          [("select", .list [.int 2]),
           ("operation", .dict [("@op", .str "Value"),
                                ("args", .dict [("name", .str "value")])])])])
        (.dict []) [] [] 10
      = .ok (.list [.int 2], [], []) := by
  refine ⟨?_, ?_, rfl⟩
  · intro S fields ctx stack store fuel v st sto hop h
    cases fuel with
    | zero => simp [process_json] at h
    | succ fuel =>
        simp only [process_json] at h
        rw [hop] at h
        simp only [bind, Except.bind] at h
        cases hd : processDictFields S fields ctx stack store fuel with
        | error e => rw [hd] at h; simp at h
        | ok r =>
            obtain ⟨fs, st2, sto2⟩ := r
            rw [hd] at h
            dsimp only [pure, Except.pure] at h
            have hkeys := processDictFields_keys S fuel fields ctx stack store fs st2 sto2 hd
            cases h
            exact ⟨fs, rfl, hkeys⟩
  · intro S json ctx stack store fuel v st sto hscalar h
    cases fuel with
    | zero => simp [process_json] at h
    | succ fuel =>
        cases json with
        | dict fields => simp [isScalarJson] at hscalar
        | list items => simp [isScalarJson] at hscalar
        | _ =>
            simp only [process_json, bind, Except.bind] at h
            split at h
            · simp at h
            · rename_i a heq
              simp only [pure, Except.pure] at h
              cases h
              exact json_to_rdflib_shape _ _ heq

/-- C1 witness: the object part of `process_json_shape_characterization`
at the program `{"a": "b"}` and the scalar part at the program `"q"`. -/
theorem process_json_shape_characterization_witness :
    (∃ fs, (PyVal.dict [("a", PyVal.term (.lit "b" (some xsdString) Option.none))])
        = PyVal.dict fs
      ∧ fs.map Prod.fst
          = ([("a", PyVal.str "b")] : List (String × PyVal)).map Prod.fst)
    ∧ ((∃ t, (PyVal.term (.lit "q" (some xsdString) Option.none)) = PyVal.term t)
      ∨ (∃ r, (PyVal.term (.lit "q" (some xsdString) Option.none)) = PyVal.result r)) := by
  constructor
  · exact process_json_shape_characterization.1 defaultSettings [("a", .str "b")]
      (.dict []) [] [] 3 (.dict [("a", .term (.lit "b" (some xsdString) Option.none))])
      [] [] rfl rfl
  · exact process_json_shape_characterization.2.1 defaultSettings (.str "q")
      (.dict []) [] [] 1 (.term (.lit "q" (some xsdString) Option.none)) [] [] rfl rfl

/-! ### C5 — Variable scoping across a list

The list branch copies the stack shallowly: the copied id list is
discarded on exit but the frames are shared, so `set_variable` into an
existing top frame persists in the enclosing stack.  To reason about
which stack an evaluation returns, we track how a stack can evolve: it is
returned unchanged, except that an evaluation started on an *empty* stack
may have appended one (valid) frame; the store only ever grows. -/

/-- How `process_json` and the operator bodies transform the threaded
stack/store pair (observed from the caller's stack object). -/
def stackEvolves (stack st : Stack) (store sto : Store) : Prop :=
  store.length ≤ sto.length ∧
  (st = stack ∨ (stack = [] ∧ ∃ n, st = [n] ∧ n < sto.length))

theorem stackEvolves_refl (stack : Stack) (store : Store) :
    stackEvolves stack stack store store :=
  ⟨Nat.le_refl _, Or.inl rfl⟩

theorem stackEvolves_trans {stack st1 st2 : Stack} {store sto1 sto2 : Store}
    (h1 : stackEvolves stack st1 store sto1) (h2 : stackEvolves st1 st2 sto1 sto2) :
    stackEvolves stack st2 store sto2 := by
  obtain ⟨m1, d1⟩ := h1
  obtain ⟨m2, d2⟩ := h2
  refine ⟨Nat.le_trans m1 m2, ?_⟩
  rcases d1 with rfl | ⟨rfl, n, rfl, hn⟩
  · rcases d2 with rfl | ⟨rfl, n, rfl, hn⟩
    · exact Or.inl rfl
    · exact Or.inr ⟨rfl, n, rfl, hn⟩
  · rcases d2 with rfl | ⟨h, _⟩
    · exact Or.inr ⟨rfl, n, rfl, Nat.lt_of_lt_of_le hn m2⟩
    · exact absurd h (by simp)

theorem getLast?_eq_none_iff_nil {α : Type} (l : List α) :
    l.getLast? = Option.none ↔ l = [] := by
  cases l with
  | nil => simp
  | cons a as => simp [getLast?_cons_ne_none a as]

theorem stackEvolves_set (name : String) (value : PyVal) (stack : Stack) (store : Store) :
    stackEvolves stack (set_variable name value stack store).1 store
      (set_variable name value stack store).2 := by
  unfold set_variable
  cases hlast : stack.getLast? with
  | none =>
      have hnil : stack = [] := (getLast?_eq_none_iff_nil stack).mp hlast
      subst hnil
      refine ⟨by simp, Or.inr ⟨rfl, store.length, by simp, by simp⟩⟩
  | some fid =>
      exact ⟨by simp, Or.inl rfl⟩

/-- Evolution invariant of `process_json`. -/
def SP (fuel : Nat) : Prop :=
  ∀ S json ctx stack store v st sto,
    process_json S json ctx stack store fuel = .ok (v, st, sto) →
    stackEvolves stack st store sto

/-- Evolution invariant of the list-branch loop. -/
def SL (fuel : Nat) : Prop :=
  ∀ S items ctx stack store vs st sto,
    processListItems S items ctx stack store fuel = .ok (vs, st, sto) →
    stackEvolves stack st store sto

/-- Evolution invariant of the dict-comprehension loop. -/
def SD (fuel : Nat) : Prop :=
  ∀ S fields ctx stack store fs st sto,
    processDictFields S fields ctx stack store fuel = .ok (fs, st, sto) →
    stackEvolves stack st store sto

/-- Evolution invariant of `Variable.execute_json`. -/
def SVar (fuel : Nat) : Prop :=
  ∀ S args ctx stack store v st sto,
    variableExecJson S args ctx stack store fuel = .ok (v, st, sto) →
    stackEvolves stack st store sto

/-- Evolution invariant of `ForEach.execute_json`. -/
def SFE (fuel : Nat) : Prop :=
  ∀ S args ctx stack store v st sto,
    forEachExecJson S args ctx stack store fuel = .ok (v, st, sto) →
    stackEvolves stack st store sto

/-- Evolution invariant of the `ForEach` item loop. -/
def SIter (fuel : Nat) : Prop :=
  ∀ S operation items stack store rs st sto,
    forEachIterate S operation items stack store fuel = .ok (rs, st, sto) →
    stackEvolves stack st store sto

/-- Evolution invariant of the `ForEach` operation-list loop. -/
def SOps (fuel : Nat) : Prop :=
  ∀ S ops item acc stack store r? st sto,
    forEachOpsSeq S ops item acc stack store fuel = .ok (r?, st, sto) →
    stackEvolves stack st store sto

/-- Evolution invariant of `Filter.execute_json`. -/
def SFil (fuel : Nat) : Prop :=
  ∀ S args ctx stack store v st sto,
    filterExecJson S args ctx stack store fuel = .ok (v, st, sto) →
    stackEvolves stack st store sto

/-- Evolution invariant of `Value.execute_json` (no state change). -/
theorem sVal_all (fuel : Nat) :
    ∀ S args ctx stack store v st sto,
      valueExecJson S args ctx stack store fuel = .ok (v, st, sto) →
      stackEvolves stack st store sto := by
  intro S args ctx stack store v st sto h
  cases fuel with
  | zero => simp [valueExecJson] at h
  | succ fuel =>
      cases args with
      | dict fs =>
          simp only [valueExecJson] at h
          cases hname : dictGet fs "name" with
          | none => rw [hname] at h; simp at h
          | some nv =>
              rw [hname] at h
              cases nv with
              | str name =>
                  dsimp only at h
                  by_cases hdollar : pyStartsWith name "$"
                  · rw [if_pos hdollar] at h
                    simp only [bind, Except.bind] at h
                    cases hg : get_variable (pyStrDrop name 1) stack store with
                    | error e => rw [hg] at h; simp at h
                    | ok w =>
                        rw [hg] at h
                        dsimp only at h
                        cases h
                        exact stackEvolves_refl stack store
                  · rw [if_neg hdollar] at h
                    cases ctx with
                    | row r =>
                        dsimp only at h
                        cases hf : r.bindings.find? (fun kv => kv.1 = name) with
                        | none => rw [hf] at h; simp at h
                        | some kv =>
                            rw [hf] at h
                            cases h
                            exact stackEvolves_refl stack store
                    | _ =>
                        -- the hasattr/getattr fallback returns the state unchanged
                        dsimp only at h
                        split at h
                        · cases h
                          exact stackEvolves_refl stack store
                        · simp at h
              | _ => simp at h
      | _ => simp [valueExecJson] at h

theorem sCur_all (fuel : Nat) :
    ∀ S args ctx stack store v st sto,
      currentExecJson S args ctx stack store fuel = .ok (v, st, sto) →
      stackEvolves stack st store sto := by
  intro S args ctx stack store v st sto h
  cases fuel with
  | zero => simp [currentExecJson] at h
  | succ fuel =>
      cases ctx <;> simp only [currentExecJson] at h <;> cases h <;>
        exact stackEvolves_refl stack store

theorem sVar_succ (fuel : Nat) (ihP : SP fuel) : SVar (fuel + 1) := by
  intro S args ctx stack store v st sto h
  cases args with
  | dict fs =>
      simp only [variableExecJson] at h
      cases hname : dictGet fs "name" with
      | none => rw [hname] at h; simp at h
      | some nv =>
          rw [hname] at h
          cases nv with
          | str name =>
              dsimp only at h
              cases hval : dictGet fs "value" with
              | none => rw [hval] at h; simp at h
              | some ve =>
                  rw [hval] at h
                  dsimp only at h
                  simp only [bind, Except.bind, pure, Except.pure] at h
                  cases he : process_json S ve ctx stack store fuel with
                  | error e => rw [he] at h; simp at h
                  | ok w =>
                      rw [he] at h
                      obtain ⟨val, st1, sto1⟩ := w
                      have h1 := ihP S ve ctx stack store val st1 sto1 he
                      dsimp only at h
                      rcases hset : set_variable name val st1 sto1 with ⟨st2, sto2⟩
                      rw [hset] at h
                      dsimp only at h
                      cases h
                      have h2 := stackEvolves_set name val st1 sto1
                      rw [hset] at h2
                      exact stackEvolves_trans h1 h2
          | _ => simp at h
  | _ => simp [variableExecJson] at h

theorem sL_succ (fuel : Nat) (ihP : SP fuel) (ihL : SL fuel) : SL (fuel + 1) := by
  intro S items ctx stack store vs st sto h
  cases items with
  | nil =>
      simp only [processListItems] at h
      cases h
      exact stackEvolves_refl stack store
  | cons x rest =>
      simp only [processListItems, bind, Except.bind, pure, Except.pure] at h
      cases he : process_json S x ctx stack store fuel with
      | error e => rw [he] at h; simp at h
      | ok w =>
          rw [he] at h
          obtain ⟨v1, st1, sto1⟩ := w
          dsimp only at h
          cases hrest : processListItems S rest ctx st1 sto1 fuel with
          | error e => rw [hrest] at h; simp at h
          | ok w2 =>
              rw [hrest] at h
              obtain ⟨vs2, st2, sto2⟩ := w2
              have hh := stackEvolves_trans (ihP S x ctx stack store v1 st1 sto1 he)
                (ihL S rest ctx st1 sto1 vs2 st2 sto2 hrest)
              dsimp only at h
              cases h
              exact hh

theorem sD_succ (fuel : Nat) (ihP : SP fuel) (ihD : SD fuel) : SD (fuel + 1) := by
  intro S fields ctx stack store fs st sto h
  cases fields with
  | nil =>
      simp only [processDictFields] at h
      cases h
      exact stackEvolves_refl stack store
  | cons kv rest =>
      obtain ⟨k, vexp⟩ := kv
      simp only [processDictFields, bind, Except.bind, pure, Except.pure] at h
      cases he : process_json S vexp ctx stack store fuel with
      | error e => rw [he] at h; simp at h
      | ok w =>
          rw [he] at h
          obtain ⟨v1, st1, sto1⟩ := w
          dsimp only at h
          cases hrest : processDictFields S rest ctx st1 sto1 fuel with
          | error e => rw [hrest] at h; simp at h
          | ok w2 =>
              rw [hrest] at h
              obtain ⟨fs2, st2, sto2⟩ := w2
              have hh := stackEvolves_trans (ihP S vexp ctx stack store v1 st1 sto1 he)
                (ihD S rest ctx st1 sto1 fs2 st2 sto2 hrest)
              dsimp only at h
              cases h
              exact hh

theorem sOps_succ (fuel : Nat) (ihP : SP fuel) (ihO : SOps fuel) : SOps (fuel + 1) := by
  intro S ops item acc stack store r? st sto h
  cases ops with
  | nil =>
      simp only [forEachOpsSeq] at h
      cases h
      exact stackEvolves_refl stack store
  | cons op rest =>
      simp only [forEachOpsSeq, bind, Except.bind] at h
      cases he : process_json S op item stack store fuel with
      | error e => rw [he] at h; simp at h
      | ok w =>
          rw [he] at h
          obtain ⟨r, st1, sto1⟩ := w
          dsimp only at h
          exact stackEvolves_trans (ihP S op item stack store r st1 sto1 he)
            (ihO S rest item _ st1 sto1 r? st sto h)

theorem sIter_succ (fuel : Nat) (ihP : SP fuel) (ihO : SOps fuel) (ihI : SIter fuel) :
    SIter (fuel + 1) := by
  intro S operation items stack store rs st sto h
  cases items with
  | nil =>
      cases operation <;> simp only [forEachIterate] at h <;> cases h <;>
        exact stackEvolves_refl stack store
  | cons item rest =>
      cases operation with
      | list ops =>
          simp only [forEachIterate, bind, Except.bind, pure, Except.pure] at h
          cases hseq : forEachOpsSeq S ops item Option.none stack store fuel with
          | error e => rw [hseq] at h; simp at h
          | ok w =>
              rw [hseq] at h
              obtain ⟨last?, st1, sto1⟩ := w
              dsimp only at h
              cases hit : forEachIterate S (.list ops) rest st1 sto1 fuel with
              | error e => rw [hit] at h; simp at h
              | ok w2 =>
                  rw [hit] at h
                  obtain ⟨rs2, st2, sto2⟩ := w2
                  have hh := stackEvolves_trans
                    (ihO S ops item Option.none stack store last? st1 sto1 hseq)
                    (ihI S (.list ops) rest st1 sto1 rs2 st2 sto2 hit)
                  dsimp only at h
                  cases h
                  exact hh
      | _ =>
          simp only [forEachIterate, bind, Except.bind, pure, Except.pure] at h
          cases he : process_json S _ item stack store fuel with
          | error e => rw [he] at h; simp at h
          | ok w =>
              rw [he] at h
              obtain ⟨r, st1, sto1⟩ := w
              dsimp only at h
              cases hit : forEachIterate S _ rest st1 sto1 fuel with
              | error e => rw [hit] at h; simp at h
              | ok w2 =>
                  rw [hit] at h
                  obtain ⟨rs2, st2, sto2⟩ := w2
                  have hh := stackEvolves_trans (ihP S _ item stack store r st1 sto1 he)
                    (ihI S _ rest st1 sto1 rs2 st2 sto2 hit)
                  dsimp only at h
                  cases h
                  exact hh

theorem sFE_succ (fuel : Nat) (ihP : SP fuel) (ihI : SIter fuel) : SFE (fuel + 1) := by
  intro S args ctx stack store v st sto h
  cases args with
  | dict fs =>
      simp only [forEachExecJson] at h
      cases hsel : dictGet fs "select" with
      | none => rw [hsel] at h; simp at h
      | some se =>
          rw [hsel] at h
          dsimp only at h
          simp only [bind, Except.bind, pure, Except.pure] at h
          cases he : process_json S se ctx stack store fuel with
          | error e => rw [he] at h; simp at h
          | ok w =>
              rw [he] at h
              obtain ⟨sd, st1, sto1⟩ := w
              dsimp only at h
              cases hop : dictGet fs "operation" with
              | none => rw [hop] at h; simp at h
              | some op =>
                  rw [hop] at h
                  dsimp only at h
                  cases sd with
                  | list xs =>
                      dsimp only at h
                      cases hit : forEachIterate S op xs st1 sto1 fuel with
                      | error e => rw [hit] at h; simp at h
                      | ok w2 =>
                          rw [hit] at h
                          obtain ⟨rs, st2, sto2⟩ := w2
                          have hh := stackEvolves_trans
                            (ihP S se ctx stack store _ st1 sto1 he)
                            (ihI S op xs st1 sto1 rs st2 sto2 hit)
                          dsimp only at h
                          cases h
                          exact hh
                  | result r =>
                      dsimp only at h
                      cases hit : forEachIterate S op (r.rows.map .row) st1 sto1 fuel with
                      | error e => rw [hit] at h; simp at h
                      | ok w2 =>
                          rw [hit] at h
                          obtain ⟨rs, st2, sto2⟩ := w2
                          have hh := stackEvolves_trans
                            (ihP S se ctx stack store _ st1 sto1 he)
                            (ihI S op (r.rows.map .row) st1 sto1 rs st2 sto2 hit)
                          dsimp only at h
                          cases h
                          exact hh
                  | _ => dsimp only at h; simp at h
  | _ => simp [forEachExecJson] at h

theorem sFil_succ (fuel : Nat) (ihP : SP fuel) : SFil (fuel + 1) := by
  intro S args ctx stack store v st sto h
  cases args with
  | dict fs =>
      simp only [filterExecJson] at h
      cases hin : dictGet fs "input" with
      | none => rw [hin] at h; simp at h
      | some ie =>
          rw [hin] at h
          dsimp only at h
          simp only [bind, Except.bind, pure, Except.pure] at h
          cases he : process_json S ie ctx stack store fuel with
          | error e => rw [he] at h; simp at h
          | ok w =>
              rw [he] at h
              obtain ⟨input_data, st1, sto1⟩ := w
              dsimp only at h
              cases hex : dictGet fs "expression" with
              | none => rw [hex] at h; simp at h
              | some ee =>
                  rw [hex] at h
                  dsimp only at h
                  cases he2 : process_json S ee ctx st1 sto1 fuel with
                  | error e => rw [he2] at h; simp at h
                  | ok w2 =>
                      rw [he2] at h
                      obtain ⟨expression_data, st2, sto2⟩ := w2
                      dsimp only at h
                      have hev := stackEvolves_trans
                        (ihP S ie ctx stack store input_data st1 sto1 he)
                        (ihP S ee ctx st1 sto1 expression_data st2 sto2 he2)
                      by_cases hint : isInstInt expression_data = true
                      · rw [hint] at h
                        try dsimp only at h
                        cases hfe : filterExecute input_data expression_data with
                        | error e => rw [hfe] at h; simp at h
                        | ok fv =>
                            rw [hfe] at h
                            dsimp only at h
                            cases h
                            exact hev
                      · rw [Bool.eq_false_iff.mpr hint] at h
                        simp at h
  | _ => simp [filterExecJson] at h

theorem sP_succ (fuel : Nat) (ihVar : SVar fuel) (ihFE : SFE fuel) (ihFil : SFil fuel)
    (ihD : SD fuel) (ihL : SL fuel) : SP (fuel + 1) := by
  intro S json ctx stack store v st sto h
  cases json with
  | dict fields =>
      simp only [process_json] at h
      cases hop : dictGet fields "@op" with
      | none =>
          rw [hop] at h
          dsimp only at h
          simp only [bind, Except.bind, pure, Except.pure] at h
          cases hd : processDictFields S fields ctx stack store fuel with
          | error e => rw [hd] at h; simp at h
          | ok w =>
              rw [hd] at h
              obtain ⟨fs2, st2, sto2⟩ := w
              have hh := ihD S fields ctx stack store fs2 st2 sto2 hd
              dsimp only at h
              cases h
              exact hh
      | some opName =>
          rw [hop] at h
          dsimp only at h
          cases opName with
          | str s =>
              split at h
              · exact ihVar S _ ctx stack store v st sto h
              · exact sVal_all fuel S _ ctx stack store v st sto h
              · exact sCur_all fuel S _ ctx stack store v st sto h
              · exact ihFE S _ ctx stack store v st sto h
              · exact ihFil S _ ctx stack store v st sto h
              · simp at h
          | _ => simp at h
  | list items =>
      simp only [process_json, bind, Except.bind, pure, Except.pure] at h
      cases hl : processListItems S items ctx stack store fuel with
      | error e => rw [hl] at h; simp at h
      | ok w =>
          rw [hl] at h
          obtain ⟨vs, st2, sto2⟩ := w
          have hh := ihL S items ctx stack store vs st2 sto2 hl
          dsimp only at h
          cases h
          exact ⟨hh.1, Or.inl rfl⟩
  | _ =>
      simp only [process_json, bind, Except.bind, pure, Except.pure] at h
      split at h
      · simp at h
      · cases h
        exact stackEvolves_refl stack store

/-- The stack-evolution invariant holds at every fuel. -/
theorem stackInv (fuel : Nat) :
    SP fuel ∧ SL fuel ∧ SD fuel ∧ SVar fuel ∧ SFE fuel ∧ SIter fuel
    ∧ SOps fuel ∧ SFil fuel := by
  induction fuel with
  | zero =>
      refine ⟨?_, ?_, ?_, ?_, ?_, ?_, ?_, ?_⟩ <;>
        intro S a b c d e f g h3 <;>
        first
          | simp [process_json] at h3
          | simp [processListItems] at h3
          | simp [processDictFields] at h3
          | simp [variableExecJson] at h3
          | simp [forEachExecJson] at h3
          | simp [forEachIterate] at h3
          | simp [forEachOpsSeq] at *
          | simp [filterExecJson] at h3
  | succ fuel ih =>
      obtain ⟨ihP, ihL, ihD, ihVar, ihFE, ihIter, ihOps, ihFil⟩ := ih
      exact ⟨sP_succ fuel ihVar ihFE ihFil ihD ihL, sL_succ fuel ihP ihL,
        sD_succ fuel ihP ihD, sVar_succ fuel ihP, sFE_succ fuel ihP ihIter,
        sIter_succ fuel ihP ihOps ihIter, sOps_succ fuel ihP ihOps,
        sFil_succ fuel ihP⟩

/-- Reading a variable right after `set_variable` wrote it finds the
written value: the top frame is consulted first. -/
theorem get_after_set (x : String) (v : PyVal) (st : Stack) (sto : Store)
    (hvalid : ∀ fid ∈ st, fid < sto.length) :
    get_variable x (set_variable x v st sto).1 (set_variable x v st sto).2 = .ok v := by
  unfold set_variable
  cases hlast : st.getLast? with
  | none =>
      have hnil : st = [] := (getLast?_eq_none_iff_nil st).mp hlast
      subst hnil
      simp only [get_variable, List.nil_append, List.reverse_cons, List.reverse_nil]
      show get_variable.searchFrames x (sto ++ [[(x, v)]]) [sto.length] = .ok v
      simp only [get_variable.searchFrames]
      rw [List.getD_eq_getElem?_getD, List.getElem?_concat_length]
      simp [List.find?]
  | some fid =>
      rcases List.eq_nil_or_concat st with rfl | ⟨ys, a, rfl⟩
      · simp at hlast
      · rw [List.concat_eq_append] at hvalid hlast ⊢
        rw [List.getLast?_concat] at hlast
        cases hlast
        dsimp only
        have hfid : fid < sto.length := hvalid fid (by simp)
        simp only [get_variable]
        rw [List.reverse_append, List.reverse_singleton]
        simp only [List.singleton_append, get_variable.searchFrames]
        rw [getD_set_self _ _ _ _ hfid, assocSet_find_self]

/-- Evaluating the `Variable` node: its value expression runs two fuel
levels lower, and the binding is written into the threaded stack. -/
theorem variableNode_eval (S : Settings) (x : String) (e ctx : PyVal) (stack : Stack)
    (store : Store) (fuelN : Nat) (v : PyVal) (st1 : Stack) (sto1 : Store)
    (he : process_json S e ctx stack store fuelN = .ok (v, st1, sto1)) :
    process_json S (mkVariableNode x e) ctx stack store (fuelN + 2)
      = .ok (.none, (set_variable x v st1 sto1).1, (set_variable x v st1 sto1).2) := by
  simp only [mkVariableNode, process_json, variableExecJson, dictGet, List.find?,
    bind, Except.bind, pure, Except.pure]
  simp only [String.reduceEq, reduceCtorEq, decide_True, decide_False]
  have f1 : List.find? (fun kv => decide (kv.1 = "name"))
      [("name", PyVal.str x), ("value", e)] = some ("name", PyVal.str x) := rfl
  have f2 : List.find? (fun kv => decide (kv.1 = "value"))
      [("name", PyVal.str x), ("value", e)] = some ("value", e) := rfl
  rw [f1, f2]
  dsimp only
  rw [he]

/-- Evaluating the `Value` node for `$x`: a plain variable-stack read. -/
theorem valueNode_eval (S : Settings) (x : String) (ctx : PyVal) (stack : Stack)
    (store : Store) (fuelN : Nat) (w : PyVal)
    (hg : get_variable x stack store = .ok w) :
    process_json S (mkValueNode ("$" ++ x)) ctx stack store (fuelN + 2)
      = .ok (w, stack, store) := by
  have hsw : pyStartsWith ("$" ++ x) "$" = true := by
    show List.isPrefixOf ['$'] ('$' :: x.data) = true
    simp [List.isPrefixOf]
  have hdr : pyStrDrop ("$" ++ x) 1 = x := rfl
  simp only [mkValueNode, process_json, valueExecJson, dictGet, List.find?,
    bind, Except.bind, pure, Except.pure]
  simp only [String.reduceEq, reduceCtorEq, decide_True, decide_False]
  have f3 : List.find? (fun kv => decide (kv.1 = "name"))
      [("name", PyVal.str ("$" ++ x))] = some ("name", PyVal.str ("$" ++ x)) := rfl
  rw [f3]
  dsimp only
  rw [hsw]
  simp only [if_true, hdr, hg]

/-- C5 as the code has it: inside a list, a binding made by
`Variable{name: x}` is visible to `Value{name: "$x"}` in a later element,
whatever the enclosing stack; but after the list, `$x` is unbound at the
enclosing scope only when the enclosing stack was empty — when it is
non-empty, the shallow `variable_stack.copy()` shares the top frame, so the
binding persists in the enclosing stack. -/
theorem variable_scope_in_list (S : Settings) (x : String) (e ctx : PyVal)
    (stack : Stack) (store : Store) (fuel : Nat) (v : PyVal) (st1 : Stack) (sto1 : Store)
    (hvalid : ∀ fid ∈ stack, fid < store.length)
    (he : process_json S e ctx stack store fuel = .ok (v, st1, sto1)) :
    process_json S (.list [mkVariableNode x e, mkValueNode ("$" ++ x)]) ctx stack store
        (fuel + 4)
      = .ok (.list [.none, v], stack, (set_variable x v st1 sto1).2)
    ∧ (stack = [] →
        get_variable x stack (set_variable x v st1 sto1).2
          = .error (.valueError ("Variable '" ++ x ++ "' not found")))
    ∧ (stack ≠ [] → get_variable x stack (set_variable x v st1 sto1).2 = .ok v) := by
  have hevo := (stackInv fuel).1 S e ctx stack store v st1 sto1 he
  have hval1 : ∀ fid ∈ st1, fid < sto1.length := by
    obtain ⟨hm, hd⟩ := hevo
    rcases hd with rfl | ⟨hs, n, rfl, hn⟩
    · intro fid hf
      exact Nat.lt_of_lt_of_le (hvalid fid hf) hm
    · intro fid hf
      simp at hf
      subst hf
      exact hn
  have hget := get_after_set x v st1 sto1 hval1
  cases fuel with
  | zero => simp [process_json] at he
  | succ f =>
      have h1 := variableNode_eval S x e ctx stack store (f + 1) v st1 sto1 he
      have h2 := valueNode_eval S x ctx (set_variable x v st1 sto1).1
        (set_variable x v st1 sto1).2 f v hget
      refine ⟨?_, ?_, ?_⟩
      · rw [show f + 1 + 4 = (f + 1 + 3) + 1 from rfl]
        simp only [process_json, bind, Except.bind, pure, Except.pure]
        rw [show f + 1 + 3 = (f + 1 + 2) + 1 from rfl]
        simp only [processListItems, bind, Except.bind, pure, Except.pure]
        rw [h1]
        dsimp only
        rw [h2]
      · intro hnil
        subst hnil
        rfl
      · intro hne
        have hst1 : st1 = stack := by
          rcases hevo.2 with h | ⟨hnil, _⟩
          · exact h
          · exact absurd hnil hne
        subst hst1
        have hfst : (set_variable x v st1 sto1).1 = st1 := by
          unfold set_variable
          cases hl : st1.getLast? with
          | none => exact absurd ((getLast?_eq_none_iff_nil st1).mp hl) hne
          | some fid => rfl
        rw [hfst] at hget
        exact hget

/-- C5 counterexample: with a non-empty enclosing stack (one existing
frame), the binding made inside the list persists in the enclosing scope
after the list finishes — `$x` is still bound. -/
theorem variable_leaks_into_enclosing_frame :
    process_json defaultSettings
        (.list [mkVariableNode "x" (.str "hello"), mkValueNode "$x"])
        (.dict []) [0] [[]] 10
      = .ok (.list [.none, .term (.lit "hello" (some xsdString) Option.none)], [0],
             [[("x", .term (.lit "hello" (some xsdString) Option.none))]])
    ∧ get_variable "x" [0] [[("x", .term (.lit "hello" (some xsdString) Option.none))]]
        = .ok (.term (.lit "hello" (some xsdString) Option.none)) := by
  exact ⟨rfl, rfl⟩

/-- C5 witness: concrete run of `variable_scope_in_list` on the stack
`[0]` over a store with one empty frame. -/
theorem variable_scope_in_list_witness :
    process_json defaultSettings
        (.list [mkVariableNode "x" (.str "hello"), mkValueNode ("$" ++ "x")])
        (.dict []) [0] [[]] (1 + 4)
      = .ok (.list [.none, .term (.lit "hello" (some xsdString) Option.none)], [0],
             (set_variable "x" (.term (.lit "hello" (some xsdString) Option.none)) [0] [[]]).2)
    ∧ get_variable "x" [0]
        (set_variable "x" (.term (.lit "hello" (some xsdString) Option.none)) [0] [[]]).2
      = .ok (.term (.lit "hello" (some xsdString) Option.none)) := by
  have h := variable_scope_in_list defaultSettings "x" (.str "hello") (.dict [])
    [0] [[]] 1 (.term (.lit "hello" (some xsdString) Option.none)) [0] [[]]
    (by intro fid hf; simp at hf; subst hf; simp) rfl
  exact ⟨h.1, h.2.2 (by simp)⟩

end WebAlgebra
